import Mathlib

/-!
# Verification of the rust-pdf object store / serialization engine

Shallow embedding of `src/lib.rs` (struct `Pdf` and its methods) and the
parts of `src/canvas.rs` the claims depend on.  The output file is modelled
as a `List Char` where each element stands for one output byte; byte
positions are list indices.  Rust's `HashMap` iteration order is
unspecified; the model fixes insertion order.  The modules `fontsource`,
`fontref` and `outline` are not present under `src/`, so the serialized
form of a font object, of a font reference's short name and of an outline
item dictionary are modelled from the spec (marked in their doc comments).
Fallible operations (Rust `io::Result` plus `assert!` panics) are modelled
with `Option`: `none` is an aborted operation.
-/

namespace RustPdf

/-- A font descriptor (`BuiltinFont` in the source, module not in `src/`);
value equality only, modelled as a numeric code. -/
abbrev FontSource := Nat

/-- A page-local font reference (`FontRef` in the source): its page-local
index `n`, the metrics handle is irrelevant to the claims. -/
abbrev FontRef := Nat

/-- An outline (bookmark) item: a title and the page reference that is
filled in when the owning page is finalized (`outline.rs`, not in `src/`;
fields from the spec's data model). -/
structure OutlineItem where
  title : String
  page : Option Nat
deriving DecidableEq

/-- `OutlineItem::new`: a fresh item has no page reference yet. -/
def OutlineItem.new (t : String) : OutlineItem := ⟨t, none⟩

/-- `OutlineItem::set_page`: record the owning page's object id. -/
def OutlineItem.set_page (item : OutlineItem) (p : Nat) : OutlineItem :=
  { item with page := some p }

/-- Modelled from the spec: `OutlineItem::write_dictionary` (module
`outline` is not in `src/`) writes one dictionary holding the title, the
parent reference, an optional previous-sibling reference, an optional
next-sibling reference and the resolved page reference; an unresolved
item (no page) at emission time is an internal-consistency error. -/
def OutlineItem.write_dictionary (item : OutlineItem) (parent : Nat)
    (prev next : Option Nat) : Option (List Char) :=
  match item.page with
  | none => none
  | some pg => some (
      ("<< /Title (" ++ item.title ++ ")\n   /Parent " ++ toString parent
        ++ " 0 R\n").toList
      ++ (match prev with
          | some p => ("   /Prev " ++ toString p ++ " 0 R\n").toList
          | none => [])
      ++ (match next with
          | some n => ("   /Next " ++ toString n ++ " 0 R\n").toList
          | none => [])
      ++ ("   /Dest [" ++ toString pg ++ " 0 R /XYZ null null null]\n>>\n").toList)

/-- The `Pdf` struct of `lib.rs`: the output sink (one list element per
byte), the offset table, the page object ids, the document-wide font map,
the accumulated outline items and the metadata map (a `BTreeMap`, kept
sorted by key). -/
structure Pdf where
  output : List Char
  object_offsets : List Int
  page_objects_ids : List Nat
  all_font_object_ids : List (FontSource × Nat)
  outline_items : List OutlineItem
  document_info : List (String × String)
deriving DecidableEq

/-- `ROOT_OBJECT_ID`: the catalog's reserved id. -/
def ROOT_OBJECT_ID : Nat := 1

/-- `PAGES_OBJECT_ID`: the page tree root's reserved id. -/
def PAGES_OBJECT_ID : Nat := 2

/-- The fixed file header `%PDF-1.7\n%\xB5\xED\xAE\xFB\n` written by
`Pdf::new` (the four marker bytes are non-ASCII). -/
def headerBytes : List Char :=
  "%PDF-1.7\n%".toList
  ++ [Char.ofNat 0xB5, Char.ofNat 0xED, Char.ofNat 0xAE, Char.ofNat 0xFB]
  ++ "\n".toList

/-- `Pdf::new`: write the header and reserve offset slots 0 (sentinel),
1 (catalog) and 2 (pages root), all unwritten (`-1`). -/
def Pdf.new : Pdf :=
  { output := headerBytes
    object_offsets := [-1, -1, -1]
    page_objects_ids := []
    all_font_object_ids := []
    outline_items := []
    document_info := [] }

/-- Insert into the sorted association list modelling Rust's
`BTreeMap<String, String>`: replaces an existing binding of the key. -/
def btInsert (k v : String) : List (String × String) → List (String × String)
  | [] => [(k, v)]
  | (k', v') :: rest =>
    if k < k' then (k, v) :: (k', v') :: rest
    else if k = k' then (k, v) :: rest
    else (k', v') :: btInsert k v rest

/-- `Pdf::set_title`. -/
def Pdf.set_title (pdf : Pdf) (title : String) : Pdf :=
  { pdf with document_info := btInsert "Title" title pdf.document_info }

/-- `Pdf::set_author`. -/
def Pdf.set_author (pdf : Pdf) (author : String) : Pdf :=
  { pdf with document_info := btInsert "Author" author pdf.document_info }

/-- `Pdf::set_subject`. -/
def Pdf.set_subject (pdf : Pdf) (subject : String) : Pdf :=
  { pdf with document_info := btInsert "Subject" subject pdf.document_info }

/-- `Pdf::set_keywords` — note the source inserts under the key
`"Subject"`, not `"Keywords"`. -/
def Pdf.set_keywords (pdf : Pdf) (keywords : String) : Pdf :=
  { pdf with document_info := btInsert "Subject" keywords pdf.document_info }

/-- `Pdf::set_creator`. -/
def Pdf.set_creator (pdf : Pdf) (creator : String) : Pdf :=
  { pdf with document_info := btInsert "Creator" creator pdf.document_info }

/-- `Pdf::set_producer`. -/
def Pdf.set_producer (pdf : Pdf) (producer : String) : Pdf :=
  { pdf with document_info := btInsert "Producer" producer pdf.document_info }

/-- `Pdf::tell`: the current append-only output position. -/
def Pdf.tell (pdf : Pdf) : Nat := pdf.output.length

/-- Append bytes to the output (every `write!` in the source). -/
def Pdf.app (pdf : Pdf) (s : List Char) : Pdf :=
  { pdf with output := pdf.output ++ s }

/-- The object framing header `<id> 0 obj\n`. -/
def objHeader (id : Nat) : List Char :=
  (toString id).toList ++ " 0 obj\n".toList

/-- The object framing footer `endobj\n`. -/
def endobjBytes : List Char := "endobj\n".toList

/-- `Pdf::write_object`: record the current position as the offset, write
the header, the content (all closures in the source only append bytes and
return a value, so a body is a result paired with its bytes, `none` when
the closure fails), then the footer.  Returns the recorded offset. -/
def write_object {T : Type} (id : Nat) (body : Option (T × List Char))
    (pdf : Pdf) : Option (T × Int × Pdf) :=
  body.bind (fun rb =>
    some (rb.1, (pdf.tell : Int), pdf.app (objHeader id ++ rb.2 ++ endobjBytes)))

/-- `Pdf::write_new_object`: allocate the next sequential id
(`object_offsets.len()`), write the object, push the recorded offset. -/
def write_new_object {T : Type} (body : Nat → Option (T × List Char))
    (pdf : Pdf) : Option (T × Pdf) :=
  (write_object pdf.object_offsets.length (body pdf.object_offsets.length) pdf).bind
    (fun rop =>
      some (rop.1,
        { rop.2.2 with object_offsets := rop.2.2.object_offsets ++ [rop.2.1] }))

/-- `Pdf::write_object_with_id`: write at a reserved id.  The source
asserts `object_offsets[id] == -1` before writing anything (a filled slot,
or an out-of-range id, is a fatal error, modelled as `none`). -/
def write_object_with_id {T : Type} (id : Nat) (body : Option (T × List Char))
    (pdf : Pdf) : Option (T × Pdf) :=
  if pdf.object_offsets.getD id 0 = -1 then
    (write_object id body pdf).bind (fun rop =>
      some (rop.1,
        { rop.2.2 with object_offsets := rop.2.2.object_offsets.set id rop.2.1 }))
  else none

/-- One canvas interaction during a page callback: opaque drawing bytes
(every drawing/text method of `canvas.rs` just appends formatted bytes),
a font resolution (`Canvas::get_font`) or an outline registration
(`Canvas::add_outline`).  An arbitrary callback is a list of these. -/
inductive CanvasOp where
  | rawWrite : String → CanvasOp
  | getFont : FontSource → CanvasOp
  | addOutline : String → CanvasOp

/-- The state a page callback builds: the bytes it wrote into the content
stream, the page-local font map (`HashMap<FontSource, FontRef>`, insertion
order) and the page's outline items. -/
structure CanvasState where
  out : List Char
  fonts : List (FontSource × FontRef)
  items : List OutlineItem

/-- One step of a page callback.  `Canvas::get_font` returns the existing
reference if the descriptor was already resolved on this page, otherwise
assigns the next page-local index `fonts.len()`. -/
def runOp (st : CanvasState) : CanvasOp → CanvasState
  | .rawWrite s => { st with out := st.out ++ s.toList }
  | .getFont f =>
      if (st.fonts.lookup f).isSome then st
      else { st with fonts := st.fonts ++ [(f, st.fonts.length)] }
  | .addOutline t => { st with items := st.items ++ [OutlineItem.new t] }

/-- Run a whole page callback from the empty canvas state. -/
def runOps (ops : List CanvasOp) : CanvasState :=
  ops.foldl runOp ⟨[], [], []⟩

/-- Modelled from the spec: the serialized form of a font object
(`FontSource::write_object`'s content; module `fontsource` is not in
`src/`, the spec says the descriptor's own serialization logic is used). -/
def fontBody (src : FontSource) : List Char :=
  ("<< /Type /Font /Subtype /Type1 /BaseFont /Font" ++ toString src
    ++ " /Encoding /WinAnsiEncoding >>\n").toList

/-- `FontSource::write_object`: allocate a real output object for the
font and return its id (modelled from the spec for the body bytes). -/
def fontWriteObject (src : FontSource) (pdf : Pdf) : Option (Nat × Pdf) :=
  write_new_object (fun oid => some (oid, fontBody src)) pdf

/-- The font loop of `Pdf::render_page` (lines 195-204): for each page
font in order, reuse the document-wide object id when the descriptor is
already mapped, otherwise write a new font object and record the mapping.
Returns the page's `NamedRefs` table (page-local reference, object id). -/
def writeFonts : List (FontSource × FontRef) → Pdf → Option (List (FontRef × Nat) × Pdf)
  | [], pdf => some ([], pdf)
  | (src, r) :: rest, pdf =>
    match pdf.all_font_object_ids.lookup src with
    | some oid =>
      (writeFonts rest pdf).bind (fun op => some ((r, oid) :: op.1, op.2))
    | none =>
      (fontWriteObject src pdf).bind (fun op =>
        (writeFonts rest
            { op.2 with
              all_font_object_ids := op.2.all_font_object_ids ++ [(src, op.1)] }).bind
          (fun op2 => some ((r, op.1) :: op2.1, op2.2)))

/-- Modelled from the spec: the rendering of a `NamedRefs` table, one
`<short name> <id> 0 R ` pair per entry; the short name display of a
`FontRef` (module `fontref` not in `src/`) is its page-local index. -/
def namedRefsBytes : List (FontRef × Nat) → List Char
  | [] => []
  | (n, oid) :: rest =>
      ("/F" ++ toString n ++ " " ++ toString oid ++ " 0 R ").toList
      ++ namedRefsBytes rest

/-- The page dictionary body written by `Pdf::write_page_dict`.  `wd` and
`ht` are the `Display` renderings of the `f32` width and height. -/
def pageDictBody (cid : Nat) (wd ht : String) (oids : List (FontRef × Nat)) : List Char :=
  ("<< /Type /Page\n   /Parent " ++ toString PAGES_OBJECT_ID
    ++ " 0 R\n   /Resources << /Font << ").toList
  ++ namedRefsBytes oids
  ++ (">> >>\n   /MediaBox [ 0 0 " ++ wd ++ " " ++ ht ++ " ]\n   /Contents "
      ++ toString cid ++ " 0 R\n>>\n").toList

/-- `Pdf::write_page_dict`: allocate and write the page dictionary,
returning the page's object id. -/
def write_page_dict (cid : Nat) (wd ht : String) (oids : List (FontRef × Nat))
    (pdf : Pdf) : Option (Nat × Pdf) :=
  write_new_object (fun page_oid => some (page_oid, pageDictBody cid wd ht oids)) pdf

/-- The fixed content-stream opening written before the page callback
runs: `/DeviceRGB cs /DeviceRGB CS\n`. -/
def preludeBytes : List Char := "/DeviceRGB cs /DeviceRGB CS\n".toList

/-- The stream dictionary and `stream` keyword written before the content,
with the forward reference to the predicted length object. -/
def streamDictBytes (lenId : Nat) : List Char :=
  ("<< /Length " ++ toString lenId ++ " 0 R >>\nstream\n").toList

/-- The `endstream\n` keyword. -/
def endstreamBytes : List Char := "endstream\n".toList

/-- `Pdf::render_page`: allocate the content-stream object, predict the
length object's id as `cid + 1`, write the stream dictionary, record the
position, write the prelude and the callback's bytes, record the position
again, close the stream; then allocate the length object (the source
asserts its id equals the prediction, modelled by the `if`), then write
any new font objects, the page dictionary, and finally merge the page's
outline items (resolved with the page's object id) and record the page. -/
def render_page (wd ht : String) (ops : List CanvasOp) (pdf : Pdf) : Option Pdf :=
  let st := runOps ops
  (write_new_object (fun cid =>
      some ((cid, preludeBytes.length + st.out.length),
        streamDictBytes (cid + 1) ++ preludeBytes ++ st.out ++ endstreamBytes)) pdf).bind
  (fun a =>
    (write_new_object (fun lid =>
        if lid = a.1.1 + 1 then some ((), (toString a.1.2 ++ "\n").toList)
        else none) a.2).bind
    (fun b =>
      (writeFonts st.fonts b.2).bind
      (fun c =>
        (write_page_dict a.1.1 wd ht c.1 c.2).bind
        (fun d =>
          some { d.2 with
                 outline_items :=
                   d.2.outline_items ++ st.items.map (fun it => it.set_page d.1)
                 page_objects_ids := d.2.page_objects_ids ++ [d.1] }))))

/-- The pages-root body written by `Pdf::finish`. -/
def pagesBody (ids : List Nat) : List Char :=
  ("<< /Type /Pages\n   /Count " ++ toString ids.length ++ "\n   /Kids [ "
    ++ String.join (ids.map (fun id => toString id ++ " 0 R ")) ++ "]\n>>\n").toList

/-- The document-info body: one ` /Key (value)\n` pair per metadata entry
(in `BTreeMap` key order) plus the creation/modification timestamps when
`strftime` succeeds (`now` is its result, `none` on failure). -/
def infoBody (info : List (String × String)) (now : Option String) : List Char :=
  "<<".toList
  ++ (info.map (fun kv => (" /" ++ kv.1 ++ " (" ++ kv.2 ++ ")\n").toList)).flatten
  ++ (match now with
      | some n => (" /CreationDate (D:" ++ n ++ ")\n /ModDate (D:" ++ n ++ ")").toList
      | none => [])
  ++ ">>\n".toList

/-- The outline root body written last by `Pdf::write_outlines`. -/
def rootBody (first last count : Nat) : List Char :=
  ("<< /Type /Outlines\n   /First " ++ toString first ++ " 0 R\n   /Last "
    ++ toString last ++ " 0 R\n   /Count " ++ toString count ++ "\n>>\n").toList

/-- The item loop of `Pdf::write_outlines`: write one object per item in
order, the first item with no previous reference, the last with no next
reference, the others referencing `object_id - 1` and `object_id + 1`;
track the first and last assigned ids. -/
def writeOutlineItems : List OutlineItem → Nat → Nat → Nat → Nat → Nat → Pdf →
    Option (Nat × Nat × Pdf)
  | [], _, _, _, fid, lid, pdf => some (fid, lid, pdf)
  | item :: rest, i, count, pid, fid, lid, pdf =>
    (write_new_object (fun oid =>
        (item.write_dictionary pid
            (if i = 0 then none else some (oid - 1))
            (if i = count - 1 then none else some (oid + 1))).bind
          (fun bs => some (oid, bs))) pdf).bind
    (fun a =>
      writeOutlineItems rest (i + 1) count pid
        (if i = 0 then a.1 else fid) (if i = count - 1 then a.1 else lid) a.2)

/-- `Pdf::write_outlines`: nothing when no items exist; otherwise reserve
the root id (push an unwritten slot), write the items, then write the
root at the reserved id with first/last/count. -/
def write_outlines (pdf : Pdf) : Option (Option Nat × Pdf) :=
  if pdf.outline_items.isEmpty then some (none, pdf)
  else
    let parent_id := pdf.object_offsets.length
    let pdf0 := { pdf with object_offsets := pdf.object_offsets ++ [-1] }
    (writeOutlineItems pdf0.outline_items 0 pdf0.outline_items.length
        parent_id 0 0 pdf0).bind
    (fun a =>
      (write_object_with_id parent_id
          (some ((), rootBody a.1 a.2.1 pdf0.outline_items.length)) a.2.2).bind
      (fun b => some (some parent_id, b.2)))

/-- Rust's `{:010}` formatting of a non-negative offset: zero-pad the
decimal to ten digits. -/
def pad10 (n : Nat) : List Char :=
  List.replicate (10 - (toString n).length) '0' ++ (toString n).toList

/-- The cross-reference rows for object ids 1 and up: the source asserts
`offset >= 0` for each (an unwritten sentinel is fatal, modelled `none`). -/
def xrefRows : List Int → Option (List Char)
  | [] => some []
  | off :: rest =>
    if 0 ≤ off then
      match xrefRows rest with
      | none => none
      | some bs => some (pad10 off.toNat ++ " 00000 n \n".toList ++ bs)
    else none

/-- The opening of the cross-reference section, including the free entry
for object 0. -/
def xrefHeaderBytes (count : Nat) : List Char :=
  ("xref\n0 " ++ toString count ++ "\n0000000000 65535 f \n").toList

/-- The catalog body: pages-root reference plus an `/Outlines` entry only
when an outline root exists. -/
def catalogBody (outlines : Option Nat) : List Char :=
  ("<< /Type /Catalog\n   /Pages " ++ toString PAGES_OBJECT_ID ++ " 0 R\n").toList
  ++ (match outlines with
      | some oid => ("/Outlines " ++ toString oid ++ " 0 R\n").toList
      | none => [])
  ++ ">>\n".toList

/-- The trailer dictionary, `startxref` pointer and `%%EOF`. -/
def trailerBytes (size : Nat) (infoId : Option Nat) (startxref : Nat) : List Char :=
  ("trailer\n<< /Size " ++ toString size ++ "\n   /Root " ++ toString ROOT_OBJECT_ID
    ++ " 0 R\n").toList
  ++ (match infoId with
      | some id => ("   /Info " ++ toString id ++ " 0 R\n").toList
      | none => [])
  ++ (">>\nstartxref\n" ++ toString startxref ++ "\n%%EOF\n").toList

/-- `Pdf::finish`: write the pages root at its reserved id, the optional
document-info object, the outlines, the catalog at its reserved id; then
record the cross-reference position and emit the table, the trailer and
the `startxref` pointer. -/
def finish (now : Option String) (pdf : Pdf) : Option Pdf :=
  (write_object_with_id PAGES_OBJECT_ID
      (some ((), pagesBody pdf.page_objects_ids)) pdf).bind
  (fun a =>
    (if a.2.document_info.isEmpty then some (none, a.2)
     else write_new_object
       (fun ioid => some (some ioid, infoBody a.2.document_info now)) a.2).bind
    (fun b =>
      (write_outlines b.2).bind
      (fun c =>
        (write_object_with_id ROOT_OBJECT_ID
            (some ((), catalogBody c.1)) c.2).bind
        (fun d =>
          let startxref := d.2.tell
          let pdf5 := d.2.app (xrefHeaderBytes d.2.object_offsets.length)
          (xrefRows (pdf5.object_offsets.drop 1)).bind
          (fun rows =>
            some ((pdf5.app rows).app
              (trailerBytes pdf5.object_offsets.length b.1 startxref)))))))

/-- A page render request: the `Display` renderings of width and height,
and the callback as a list of canvas interactions. -/
structure PageSpec where
  width : String
  height : String
  ops : List CanvasOp

/-- A sequence of `render_page` calls. -/
def runPages : List PageSpec → Pdf → Option Pdf
  | [], pdf => some pdf
  | p :: ps, pdf =>
    (render_page p.width p.height p.ops pdf).bind (fun pdf' => runPages ps pdf')

/-- State-free description of the effect of the font loop: given the
document font map, the current output length and the next id to allocate,
produce the page's reference table, the bytes appended, the offsets
pushed, and the updated map. -/
def fontsSim (map : List (FontSource × Nat)) (outLen nextId : Nat) :
    List (FontSource × FontRef) →
    List (FontRef × Nat) × List Char × List Int × List (FontSource × Nat)
  | [] => ([], [], [], map)
  | (src, r) :: rest =>
    match map.lookup src with
    | some oid =>
      let res := fontsSim map outLen nextId rest
      ((r, oid) :: res.1, res.2.1, res.2.2.1, res.2.2.2)
    | none =>
      let frame := objHeader nextId ++ fontBody src ++ endobjBytes
      let res := fontsSim (map ++ [(src, nextId)]) (outLen + frame.length) (nextId + 1) rest
      ((r, nextId) :: res.1, frame ++ res.2.1, ((outLen : Int)) :: res.2.2.1, res.2.2.2)

/-- The keys of the fonts a font loop run writes fresh objects for (those
not yet in the document map), in write order. -/
def simNewKeys (map : List (FontSource × Nat)) (nextId : Nat) :
    List (FontSource × FontRef) → List FontSource
  | [] => []
  | (src, _) :: rest =>
    match map.lookup src with
    | some _ => simNewKeys map nextId rest
    | none => src :: simNewKeys (map ++ [(src, nextId)]) (nextId + 1) rest

/-- The content-stream object frame a `render_page` call on `pdf` emits
(header, stream dictionary with the forward length reference, prelude,
callback bytes, `endstream`, footer). -/
def rpContentFrame (pdf : Pdf) (ops : List CanvasOp) : List Char :=
  objHeader pdf.object_offsets.length
  ++ (streamDictBytes (pdf.object_offsets.length + 1) ++ preludeBytes
      ++ (runOps ops).out ++ endstreamBytes) ++ endobjBytes

/-- The length-object frame a `render_page` call emits right after the
content stream. -/
def rpLenFrame (pdf : Pdf) (ops : List CanvasOp) : List Char :=
  objHeader (pdf.object_offsets.length + 1)
  ++ ((toString (preludeBytes.length + (runOps ops).out.length) ++ "\n").toList)
  ++ endobjBytes

/-- The output after `render_page` has written the content-stream and
length objects. -/
def rpOut1 (pdf : Pdf) (ops : List CanvasOp) : List Char :=
  (pdf.output ++ rpContentFrame pdf ops) ++ rpLenFrame pdf ops

/-- The offset table after `render_page` has written the content-stream
and length objects. -/
def rpOffs1 (pdf : Pdf) (ops : List CanvasOp) : List Int :=
  (pdf.object_offsets ++ [((pdf.output.length : Int))])
  ++ [(((pdf.output ++ rpContentFrame pdf ops).length : Int))]

/-- The font-loop result (page reference table, appended bytes, pushed
offsets, updated document map) of a `render_page` call on `pdf`. -/
def rpFontsRes (pdf : Pdf) (ops : List CanvasOp) :
    List (FontRef × Nat) × List Char × List Int × List (FontSource × Nat) :=
  fontsSim pdf.all_font_object_ids (rpOut1 pdf ops).length (rpOffs1 pdf ops).length
    (runOps ops).fonts

/-- The page-dictionary object id a `render_page` call assigns. -/
def rpPageId (pdf : Pdf) (ops : List CanvasOp) : Nat :=
  (rpOffs1 pdf ops ++ (rpFontsRes pdf ops).2.2.1).length

/-- State-free description of one `render_page` call: the content-stream
frame, the length-object frame, the new font frames, the page-dictionary
frame, and the corresponding bookkeeping updates. -/
def renderSim (wd ht : String) (ops : List CanvasOp) (pdf : Pdf) : Pdf :=
  { output := (rpOut1 pdf ops ++ (rpFontsRes pdf ops).2.1)
      ++ (objHeader (rpPageId pdf ops)
          ++ pageDictBody pdf.object_offsets.length wd ht (rpFontsRes pdf ops).1
          ++ endobjBytes)
    object_offsets := ((rpOffs1 pdf ops ++ (rpFontsRes pdf ops).2.2.1)
      ++ [(((rpOut1 pdf ops ++ (rpFontsRes pdf ops).2.1).length : Int))])
    page_objects_ids := pdf.page_objects_ids ++ [rpPageId pdf ops]
    all_font_object_ids := (rpFontsRes pdf ops).2.2.2
    outline_items := pdf.outline_items
      ++ (runOps ops).items.map (fun it => it.set_page (rpPageId pdf ops))
    document_info := pdf.document_info }

/-- Direct description of the outline chain bytes, following the claimed
sibling structure: the item at list index `i` is written as object
`base + i`; its previous-sibling reference is absent for index 0 and is
otherwise the id `base + (i - 1)` assigned to item `i - 1`; its
next-sibling reference is absent for the last index `count - 1` and is
otherwise the id `base + (i + 1)` assigned to item `i + 1`; every item
names `pid` (the reserved root) as parent. -/
def chainSpec (pid base count : Nat) : Nat → List OutlineItem → Option (List Char)
  | _, [] => some []
  | i, item :: rest =>
    match item.write_dictionary pid
        (if i = 0 then none else some (base + (i - 1)))
        (if i = count - 1 then none else some (base + (i + 1))) with
    | none => none
    | some d =>
      match chainSpec pid base count (i + 1) rest with
      | none => none
      | some r => some ((objHeader (base + i) ++ d ++ endobjBytes) ++ r)

/-- The bytes of `l` starting at position `off` begin with `pat`. -/
def sliceEq (l : List Char) (off : Nat) (pat : List Char) : Prop :=
  (l.drop off).take pat.length = pat

/-- Offset-table invariant: every filled slot `i` records the output
position of the start of object `i`, so the bytes there begin with the
framing header `<i> 0 obj\n` and lie entirely inside the output. -/
def OffsetsOk (pdf : Pdf) : Prop :=
  ∀ i off, pdf.object_offsets[i]? = some off →
    off = -1 ∨
    (0 ≤ off ∧ off.toNat + (objHeader i).length ≤ pdf.output.length ∧
      sliceEq pdf.output off.toNat (objHeader i))

/-- Bookkeeping shape reached after construction and any number of
successful page renders: at least the three reserved slots, slots 0, 1, 2
still unwritten, every later slot already written (non-negative), and
every accumulated outline item resolved to its page. -/
def ReadyToFinish (pdf : Pdf) : Prop :=
  3 ≤ pdf.object_offsets.length ∧
  pdf.object_offsets[0]? = some (-1) ∧
  pdf.object_offsets[1]? = some (-1) ∧
  pdf.object_offsets[2]? = some (-1) ∧
  (∀ i off, pdf.object_offsets[i]? = some off → 3 ≤ i → 0 ≤ off) ∧
  (∀ it ∈ pdf.outline_items, it.page.isSome = true)

/-- Spec-side count of the fresh font objects a page writes, given the
descriptor keys already mapped document-wide; also returns the updated
key set. -/
def newCount (known : List FontSource) :
    List (FontSource × FontRef) → Nat × List FontSource
  | [] => (0, known)
  | (src, _) :: rest =>
    if src ∈ known then newCount known rest
    else
      let r := newCount (known ++ [src]) rest
      (r.1 + 1, r.2)

/-- Spec-side counts for a run of page renders: each page writes its
content stream, its length object, one font object per descriptor not
seen before, and its page dictionary (`3 + fresh fonts` objects); outline
items accumulate across pages. -/
def docCounts : List PageSpec → List FontSource → Nat × List FontSource × Nat
  | [], known => (0, known, 0)
  | p :: ps, known =>
    let st := runOps p.ops
    let r := newCount known st.fonts
    let rest := docCounts ps r.2
    (3 + r.1 + rest.1, rest.2.1, st.items.length + rest.2.2)

/-- A concrete zero-page document driven to completion, for evaluating
the general theorems on a closed input. -/
def demoDoc : Pdf := (finish none Pdf.new).getD Pdf.new

/-- A concrete document after rendering one page whose callback registers
one outline item, for evaluating the general theorems on a closed
input. -/
def demoPage : Pdf :=
  (runPages [⟨"1", "2", [CanvasOp.addOutline "t"]⟩] Pdf.new).getD Pdf.new

/-- The same one-page document driven through `finish`, so that the
catalog, the pages root and the outline root have all been written at
their reserved ids. -/
def demoPageDoc : Pdf := (finish none demoPage).getD Pdf.new

theorem writeFonts_eq (fonts : List (FontSource × FontRef)) (pdf : Pdf) :
    writeFonts fonts pdf =
      some ((fontsSim pdf.all_font_object_ids pdf.output.length
              pdf.object_offsets.length fonts).1,
        { output := pdf.output ++ (fontsSim pdf.all_font_object_ids pdf.output.length
              pdf.object_offsets.length fonts).2.1
          object_offsets := pdf.object_offsets ++ (fontsSim pdf.all_font_object_ids
              pdf.output.length pdf.object_offsets.length fonts).2.2.1
          page_objects_ids := pdf.page_objects_ids
          all_font_object_ids := (fontsSim pdf.all_font_object_ids pdf.output.length
              pdf.object_offsets.length fonts).2.2.2
          outline_items := pdf.outline_items
          document_info := pdf.document_info }) := by
  induction fonts generalizing pdf with
  | nil => simp [writeFonts, fontsSim]
  | cons hd rest ih =>
    obtain ⟨src, r⟩ := hd
    cases hlk : pdf.all_font_object_ids.lookup src with
    | some oid =>
      simp only [writeFonts, hlk, fontsSim, ih, Option.some_bind]
    | none =>
      simp only [writeFonts, hlk, fontsSim, fontWriteObject, write_new_object,
        write_object, Pdf.app, Pdf.tell, Option.some_bind]
      rw [ih]
      simp [List.append_assoc, List.length_append, objHeader, endobjBytes]

theorem render_page_eq (wd ht : String) (ops : List CanvasOp) (pdf : Pdf) :
    render_page wd ht ops pdf = some (renderSim wd ht ops pdf) := by
  simp only [render_page, renderSim, write_new_object, write_object, Pdf.app,
    Pdf.tell, Option.some_bind]
  rw [if_pos (by simp)]
  simp only [writeFonts_eq, write_page_dict, write_new_object, write_object,
    Pdf.app, Pdf.tell, Option.some_bind]
  simp [rpContentFrame, rpLenFrame, rpOut1, rpOffs1, rpFontsRes, rpPageId,
    List.append_assoc, List.length_append]

/-- C1: for every page written via `render_page`, the length object is
allocated immediately after the content-stream object — its id is exactly
the content stream's id (`cid`, the next free id) plus one, its offset slot
is pushed immediately after the content stream's, and the integer it
contains is exactly the byte delta between the position recorded after the
stream header (`startPos`) and the position recorded before `endstream`
(`endPos`). -/
theorem render_page_length_object (pdf : Pdf) (wd ht : String) (ops : List CanvasOp) :
    ∃ pdf' rest moreOffs,
      render_page wd ht ops pdf = some pdf' ∧
      (let cid := pdf.object_offsets.length
       let startPos := pdf.output.length + (objHeader cid).length
         + (streamDictBytes (cid + 1)).length
       let endPos := startPos + preludeBytes.length + (runOps ops).out.length
       pdf'.output = pdf.output
         ++ (objHeader cid ++ streamDictBytes (cid + 1) ++ preludeBytes
             ++ (runOps ops).out ++ endstreamBytes ++ endobjBytes)
         ++ (objHeader (cid + 1) ++ (toString (endPos - startPos) ++ "\n").toList
             ++ endobjBytes)
         ++ rest ∧
       pdf'.object_offsets = pdf.object_offsets
         ++ [((pdf.output.length : Int)),
             (((pdf.output ++ rpContentFrame pdf ops).length : Int))]
         ++ moreOffs) := by
  have harith : ∀ a b c : Nat, a + b + c - a = b + c := fun a b c => by omega
  refine ⟨renderSim wd ht ops pdf,
    (rpFontsRes pdf ops).2.1
      ++ (objHeader (rpPageId pdf ops)
          ++ pageDictBody pdf.object_offsets.length wd ht (rpFontsRes pdf ops).1
          ++ endobjBytes),
    (rpFontsRes pdf ops).2.2.1
      ++ [(((rpOut1 pdf ops ++ (rpFontsRes pdf ops).2.1).length : Int))],
    render_page_eq wd ht ops pdf, ?_, ?_⟩
  · simp [renderSim, rpOut1, rpContentFrame, rpLenFrame, List.append_assoc, harith]
  · simp [renderSim, rpOffs1, List.append_assoc]

/-- C10: every content stream written by `render_page` begins with the
fixed prelude `/DeviceRGB cs /DeviceRGB CS\n`, written before the
callback's bytes; the recorded byte span starts before this prelude, so
the declared stream length is the prelude's length plus the callback's
byte count — strictly positive even for a callback that writes nothing. -/
theorem render_page_stream_prelude (pdf : Pdf) (wd ht : String) (ops : List CanvasOp) :
    ∃ pdf' rest,
      render_page wd ht ops pdf = some pdf' ∧
      preludeBytes = "/DeviceRGB cs /DeviceRGB CS\n".toList ∧
      pdf'.output = pdf.output
        ++ (objHeader pdf.object_offsets.length
            ++ streamDictBytes (pdf.object_offsets.length + 1)
            ++ preludeBytes ++ (runOps ops).out ++ endstreamBytes ++ endobjBytes)
        ++ (objHeader (pdf.object_offsets.length + 1)
            ++ (toString (preludeBytes.length + (runOps ops).out.length) ++ "\n").toList
            ++ endobjBytes)
        ++ rest ∧
      0 < preludeBytes.length + (runOps ops).out.length := by
  refine ⟨renderSim wd ht ops pdf,
    (rpFontsRes pdf ops).2.1
      ++ (objHeader (rpPageId pdf ops)
          ++ pageDictBody pdf.object_offsets.length wd ht (rpFontsRes pdf ops).1
          ++ endobjBytes),
    render_page_eq wd ht ops pdf, rfl, ?_, ?_⟩
  · simp [renderSim, rpOut1, rpContentFrame, rpLenFrame, List.append_assoc]
  · have : preludeBytes.length = 28 := by decide
    omega

/-- C3: `set_keywords` stores its argument under the metadata key
`"Subject"` — the very key `set_subject` uses — so on any document it acts
exactly like `set_subject`, and calling `set_subject` then `set_keywords`
on a fresh document leaves a single `"Subject"` entry holding the keywords
string and no `"Keywords"` entry at all. -/
theorem set_keywords_stores_subject (pdf : Pdf) (s k : String) :
    (pdf.set_keywords k).document_info = (pdf.set_subject k).document_info ∧
    ((Pdf.new.set_subject s).set_keywords k).document_info = [("Subject", k)] ∧
    ((Pdf.new.set_subject s).set_keywords k).document_info.lookup "Keywords" = none := by
  have hlt : ¬ ("Subject" : String) < "Subject" := lt_irrefl _
  refine ⟨rfl, ?_, ?_⟩ <;>
    simp [Pdf.set_keywords, Pdf.set_subject, Pdf.new, btInsert, hlt, List.lookup]

/-- C7: `write_object_with_id` (used for the catalog at id 1, the pages
root at id 2 and the reserved outline root) is a fatal internal-
consistency error whenever the offset slot of the requested id is already
filled (not `-1`): the assertion precedes the object write, so the
operation aborts — modelled as `none` — with no bytes of the duplicate
object emitted. -/
theorem write_with_id_double_write_rejected {T : Type} (pdf : Pdf) (id : Nat)
    (body : Option (T × List Char))
    (h : pdf.object_offsets.getD id 0 ≠ -1) :
    write_object_with_id id body pdf = none := by
  simp only [write_object_with_id]
  rw [if_neg h]

/-- Witness for C7: a store whose slot 1 is already written rejects a
second write at id 1. -/
theorem write_with_id_double_write_rejected_witness :
    write_object_with_id 1 (some ((), ['x'])) ⟨[], [-1, 0, -1], [], [], [], []⟩ = none :=
  write_with_id_double_write_rejected _ 1 _ (by decide)

set_option maxRecDepth 100000 in
/-- C9: finishing a document with zero pages succeeds; the output gains
exactly a pages-root object with count 0 and an empty kids list and a
catalog with no `/Outlines` entry — no outline objects and no
document-info object — followed by a three-entry cross-reference table and
the trailer. -/
theorem finish_zero_pages :
    (finish none Pdf.new).map Pdf.output =
      some (Pdf.new.output
        ++ (objHeader PAGES_OBJECT_ID
            ++ "<< /Type /Pages\n   /Count 0\n   /Kids [ ]\n>>\n".toList ++ endobjBytes)
        ++ (objHeader ROOT_OBJECT_ID
            ++ "<< /Type /Catalog\n   /Pages 2 0 R\n>>\n".toList ++ endobjBytes)
        ++ xrefHeaderBytes 3
        ++ (pad10 74 ++ " 00000 n \n".toList)
        ++ (pad10 15 ++ " 00000 n \n".toList)
        ++ trailerBytes 3 none 126) := by
  decide

theorem getD_append_left {α : Type} (d : α) :
    ∀ (l₁ l₂ : List α) (n : Nat), n < l₁.length →
      (l₁ ++ l₂).getD n d = l₁.getD n d
  | _ :: _, _, 0, _ => rfl
  | _ :: l₁, l₂, n + 1, h => getD_append_left d l₁ l₂ n (by simpa using h)
  | [], _, n, h => absurd h (by simp)

theorem getD_append_at {α : Type} (d : α) :
    ∀ (l₁ : List α) (x : α) (l₂ : List α),
      (l₁ ++ x :: l₂).getD l₁.length d = x
  | [], _, _ => rfl
  | _ :: l₁, x, l₂ => getD_append_at d l₁ x l₂

theorem writeOutlineItems_spec (items : List OutlineItem) :
    ∀ (i count pid fid lid b : Nat) (pdf : Pdf),
    pdf.object_offsets.length = b + i →
    i + items.length = count →
    (∀ it ∈ items, it.page.isSome = true) →
    ∃ bytes offs fid' lid',
      chainSpec pid b count i items = some bytes ∧
      writeOutlineItems items i count pid fid lid pdf =
        some (fid', lid',
          { output := pdf.output ++ bytes
            object_offsets := pdf.object_offsets ++ offs
            page_objects_ids := pdf.page_objects_ids
            all_font_object_ids := pdf.all_font_object_ids
            outline_items := pdf.outline_items
            document_info := pdf.document_info }) ∧
      offs.length = items.length ∧ (∀ o ∈ offs, 0 ≤ o) ∧
      fid' = (if items.length = 0 then fid else if i = 0 then b else fid) ∧
      lid' = (if items.length = 0 then lid else b + (count - 1)) := by
  induction items with
  | nil =>
    intro i count pid fid lid b pdf hlen hcnt hres
    refine ⟨[], [], fid, lid, rfl, ?_, rfl, by simp, by simp, by simp⟩
    simp [writeOutlineItems]
  | cons item rest ih =>
    intro i count pid fid lid b pdf hlen hcnt hres
    have hcnt' : (i + 1) + rest.length = count := by
      simp only [List.length_cons] at hcnt
      omega
    obtain ⟨pg, hpg⟩ := Option.isSome_iff_exists.mp (hres item (by simp))
    have hresRest : ∀ it ∈ rest, it.page.isSome = true := fun it hit =>
      hres it (by simp [hit])
    obtain ⟨d, hd⟩ : ∃ d,
        item.write_dictionary pid
          (if i = 0 then none else some (b + i - 1))
          (if i = count - 1 then none else some (b + i + 1)) = some d := by
      simp [OutlineItem.write_dictionary, hpg]
    have e1 : (if i = 0 then (none : Option Nat) else some (b + i - 1))
        = (if i = 0 then none else some (b + (i - 1))) := by
      by_cases h0 : i = 0
      · simp [h0]
      · simp only [if_neg h0, Option.some.injEq]
        omega
    have e2 : (if i = count - 1 then (none : Option Nat) else some (b + i + 1))
        = (if i = count - 1 then none else some (b + (i + 1))) := by
      by_cases hl : i = count - 1
      · simp [hl]
      · simp only [if_neg hl, Option.some.injEq]
        omega
    have hd' : item.write_dictionary pid
        (if i = 0 then none else some (b + (i - 1)))
        (if i = count - 1 then none else some (b + (i + 1))) = some d := by
      rw [← e1, ← e2]
      exact hd
    set pdf1 : Pdf :=
      { output := pdf.output ++ (objHeader (b + i) ++ d ++ endobjBytes)
        object_offsets := pdf.object_offsets ++ [((pdf.output.length : Int))]
        page_objects_ids := pdf.page_objects_ids
        all_font_object_ids := pdf.all_font_object_ids
        outline_items := pdf.outline_items
        document_info := pdf.document_info } with hpdf1
    have hlen1 : pdf1.object_offsets.length = b + (i + 1) := by
      simp only [hpdf1, List.length_append, List.length_cons, List.length_nil, hlen]
      omega
    obtain ⟨bytes', offs', fid'', lid'', hchain', hrun', hofflen', hoffpos',
      hfid'', hlid''⟩ :=
      ih (i + 1) count pid (if i = 0 then b + i else fid)
        (if i = count - 1 then b + i else lid) b pdf1 hlen1 hcnt' hresRest
    have hwno : write_new_object (fun oid =>
        (item.write_dictionary pid
            (if i = 0 then none else some (oid - 1))
            (if i = count - 1 then none else some (oid + 1))).bind
          (fun bs => some (oid, bs))) pdf = some (b + i, pdf1) := by
      simp only [write_new_object, write_object, hlen, hd, Pdf.app, Pdf.tell,
        hpdf1, Option.some_bind]
    refine ⟨(objHeader (b + i) ++ d ++ endobjBytes) ++ bytes',
      ((pdf.output.length : Int)) :: offs',
      fid'', lid'', ?_, ?_, by simp [hofflen'], ?_, ?_, ?_⟩
    · rw [chainSpec, hd', hchain']
    · rw [writeOutlineItems, hwno]
      simp only [Option.some_bind, hrun']
      simp [hpdf1, List.append_assoc]
    · intro o ho
      rcases List.mem_cons.mp ho with h | h
      · subst h
        exact Int.natCast_nonneg _
      · exact hoffpos' o h
    · rw [hfid'']
      by_cases h0 : i = 0 <;> simp [h0]
    · rw [hlid'']
      simp only [List.length_cons]
      by_cases hr : rest.length = 0
      · have hil : i = count - 1 := by omega
        rw [if_pos hr, if_pos hil, if_neg (by omega)]
        omega
      · rw [if_neg hr, if_neg (by omega)]

theorem write_outlines_spec (pdf : Pdf) (hne : ¬ pdf.outline_items.isEmpty)
    (hres : ∀ it ∈ pdf.outline_items, it.page.isSome = true) :
    ∃ bytes offs pdf',
      write_outlines pdf = some (some pdf.object_offsets.length, pdf') ∧
      chainSpec pdf.object_offsets.length (pdf.object_offsets.length + 1)
        pdf.outline_items.length 0 pdf.outline_items = some bytes ∧
      pdf'.output = (pdf.output ++ bytes)
        ++ (objHeader pdf.object_offsets.length
            ++ rootBody (pdf.object_offsets.length + 1)
                (pdf.object_offsets.length + pdf.outline_items.length)
                pdf.outline_items.length
            ++ endobjBytes) ∧
      pdf'.object_offsets = ((pdf.object_offsets ++ [-1]) ++ offs).set
        pdf.object_offsets.length (((pdf.output ++ bytes).length : Int)) ∧
      offs.length = pdf.outline_items.length ∧
      (∀ o ∈ offs, 0 ≤ o) ∧
      pdf'.page_objects_ids = pdf.page_objects_ids ∧
      pdf'.all_font_object_ids = pdf.all_font_object_ids ∧
      pdf'.outline_items = pdf.outline_items ∧
      pdf'.document_info = pdf.document_info := by
  have hM : 0 < pdf.outline_items.length := by
    cases h : pdf.outline_items with
    | nil => rw [h] at hne; simp [List.isEmpty] at hne
    | cons a l => simp [h]
  obtain ⟨bytes, offs, fid', lid', hchain, hrun, hofflen, hoffpos, hfid, hlid⟩ :=
    writeOutlineItems_spec pdf.outline_items 0 pdf.outline_items.length
      pdf.object_offsets.length 0 0 (pdf.object_offsets.length + 1)
      { output := pdf.output
        object_offsets := pdf.object_offsets ++ [-1]
        page_objects_ids := pdf.page_objects_ids
        all_font_object_ids := pdf.all_font_object_ids
        outline_items := pdf.outline_items
        document_info := pdf.document_info }
      (by simp) (by omega) hres
  have hfidv : fid' = pdf.object_offsets.length + 1 := by
    rw [hfid, if_neg (by omega), if_pos rfl]
  have hlidv : lid' = pdf.object_offsets.length + pdf.outline_items.length := by
    rw [hlid, if_neg (by omega)]
    omega
  have hguard : ((pdf.object_offsets ++ [-1]) ++ offs).getD pdf.object_offsets.length 0
      = -1 := by
    rw [List.append_assoc, List.singleton_append]
    exact getD_append_at 0 pdf.object_offsets (-1) offs
  refine ⟨bytes, offs,
    { output := (pdf.output ++ bytes)
        ++ (objHeader pdf.object_offsets.length
            ++ rootBody (pdf.object_offsets.length + 1)
                (pdf.object_offsets.length + pdf.outline_items.length)
                pdf.outline_items.length
            ++ endobjBytes)
      object_offsets := ((pdf.object_offsets ++ [-1]) ++ offs).set
        pdf.object_offsets.length (((pdf.output ++ bytes).length : Int))
      page_objects_ids := pdf.page_objects_ids
      all_font_object_ids := pdf.all_font_object_ids
      outline_items := pdf.outline_items
      document_info := pdf.document_info },
    ?_, hchain, by simp, rfl, hofflen, hoffpos, rfl, rfl, rfl, rfl⟩
  rw [write_outlines, if_neg (by simpa using hne)]
  simp only [hrun, Option.some_bind]
  unfold write_object_with_id
  rw [if_pos hguard]
  simp only [write_object, Pdf.app, Pdf.tell, hfidv, hlidv, Option.some_bind]

/-- C2: for the `M ≥ 1` outline items accumulated across pages (all
resolved to their pages), `write_outlines` reserves the root id `pid` (the
next free id), then writes one object per item in list order with exactly
the claimed sibling references — item at index `i` gets id `pid + 1 + i`,
no previous reference at index 0, no next reference at index `M - 1`, and
otherwise the actual ids assigned to items `i - 1` and `i + 1`, with the
reserved root as parent (all per `chainSpec`) — and finally writes the
root object carrying first = item 0's id `pid + 1`, last = item `M - 1`'s
id `pid + M`, and count = `M`. -/
theorem outline_chain (pdf : Pdf) (hne : ¬ pdf.outline_items.isEmpty)
    (hres : ∀ it ∈ pdf.outline_items, it.page.isSome = true) :
    ∃ bytes pdf',
      write_outlines pdf = some (some pdf.object_offsets.length, pdf') ∧
      chainSpec pdf.object_offsets.length (pdf.object_offsets.length + 1)
        pdf.outline_items.length 0 pdf.outline_items = some bytes ∧
      pdf'.output = (pdf.output ++ bytes)
        ++ (objHeader pdf.object_offsets.length
            ++ rootBody (pdf.object_offsets.length + 1)
                (pdf.object_offsets.length + pdf.outline_items.length)
                pdf.outline_items.length
            ++ endobjBytes) := by
  obtain ⟨bytes, offs, pdf', h1, h2, h3, -⟩ := write_outlines_spec pdf hne hres
  exact ⟨bytes, pdf', h1, h2, h3⟩

/-- Witness for C2: a document with two resolved outline items emits the
chain with root id 3, items at ids 4 and 5, first 4 and last 5. -/
theorem outline_chain_witness :
    ∃ bytes pdf',
      write_outlines ⟨[], [-1, -1, -1], [], [],
        [⟨"a", some 6⟩, ⟨"b", some 6⟩], []⟩ = some (some 3, pdf') ∧
      chainSpec 3 4 2 0 [⟨"a", some 6⟩, ⟨"b", some 6⟩] = some bytes ∧
      pdf'.output = ([] ++ bytes) ++ (objHeader 3 ++ rootBody 4 5 2 ++ endobjBytes) :=
  outline_chain ⟨[], [-1, -1, -1], [], [], [⟨"a", some 6⟩, ⟨"b", some 6⟩], []⟩
    (by decide) (by decide)

theorem lookup_append {β : Type} (f : Nat) (m rest : List (Nat × β)) :
    (m ++ rest).lookup f =
      match m.lookup f with
      | some v => some v
      | none => rest.lookup f := by
  induction m with
  | nil => rfl
  | cons kv m ih =>
    obtain ⟨k, v⟩ := kv
    simp only [List.cons_append, List.lookup]
    cases hk : f == k <;> simp [hk, ih]

theorem lookup_cons_ne {β : Type} (f k : Nat) (v : β) (l : List (Nat × β))
    (h : (f == k) = false) :
    List.lookup f ((k, v) :: l) = List.lookup f l := by
  simp [List.lookup, h]

theorem lookup_cons_self {β : Type} (k : Nat) (v : β) (l : List (Nat × β)) :
    List.lookup k ((k, v) :: l) = some v := by
  simp [List.lookup]

theorem lookup_count_zero (f : Nat) {β : Type} (m : List (Nat × β))
    (h : m.lookup f = none) : m.countP (fun e => e.1 == f) = 0 := by
  induction m with
  | nil => rfl
  | cons kv m ih =>
    obtain ⟨k, v⟩ := kv
    cases hk : f == k
    · rw [lookup_cons_ne f k v m hk] at h
      have hkf : (k == f) = false := by
        have hne : f ≠ k := by simpa using (beq_eq_false_iff_ne (a := f) (b := k)).mp hk
        simpa using fun he => hne he.symm
      simp [List.countP_cons, hkf, ih h]
    · have : f = k := by simpa using hk
      subst this
      rw [lookup_cons_self] at h
      simp at h

theorem fontsSim_count (f : Nat) (fonts : List (FontSource × FontRef)) :
    ∀ (map : List (FontSource × Nat)) (olen nid : Nat),
      ((fontsSim map olen nid fonts).2.2.2).countP (fun e => e.1 == f) =
        map.countP (fun e => e.1 == f) +
          (if map.lookup f = none ∧ (fonts.lookup f).isSome then 1 else 0) := by
  induction fonts with
  | nil =>
    intro map olen nid
    simp [fontsSim, List.lookup]
  | cons hd rest ih =>
    intro map olen nid
    obtain ⟨src, r⟩ := hd
    by_cases hfs : f = src
    · subst hfs
      cases hm : map.lookup f with
      | some oid =>
        simp only [fontsSim, hm, ih]
        simp [hm]
      | none =>
        simp only [fontsSim, hm, ih]
        have h1 : (map ++ [(f, nid)]).lookup f = some nid := by
          rw [lookup_append, hm, lookup_cons_self]
        rw [h1, lookup_cons_self]
        simp only [List.countP_append]
        rw [lookup_count_zero f map hm]
        simp [List.countP_cons, hm]
    · have hbeq : (f == src) = false := by
        simpa using (beq_eq_false_iff_ne (a := f) (b := src)).mpr hfs
      rw [lookup_cons_ne f src r rest hbeq]
      cases hm : map.lookup src with
      | some oid =>
        simp only [fontsSim, hm, ih]
      | none =>
        simp only [fontsSim, hm, ih]
        have h1 : (map ++ [(src, nid)]).lookup f = map.lookup f := by
          rw [lookup_append]
          cases hf : map.lookup f
          · rw [lookup_cons_ne f src nid [] hbeq]
            rfl
          · rfl
        have h2 : List.countP (fun e => e.1 == f) [(src, nid)] = 0 := by
          have hsf : (src == f) = false := by
            simpa using (beq_eq_false_iff_ne (a := src) (b := f)).mpr
              (fun he => hfs he.symm)
          simp [List.countP_cons, hsf]
        rw [h1, List.countP_append, h2]
        simp

theorem fontsSim_map_keeps (f : Nat) (oid : Nat) (fonts : List (FontSource × FontRef)) :
    ∀ (map : List (FontSource × Nat)) (olen nid : Nat),
      map.lookup f = some oid →
      ((fontsSim map olen nid fonts).2.2.2).lookup f = some oid := by
  induction fonts with
  | nil =>
    intro map olen nid h
    simpa [fontsSim] using h
  | cons hd rest ih =>
    intro map olen nid h
    obtain ⟨src, r⟩ := hd
    cases hm : map.lookup src with
    | some o => simpa only [fontsSim, hm] using ih map olen nid h
    | none =>
      simp only [fontsSim, hm]
      refine ih _ _ _ ?_
      rw [lookup_append, h]

theorem fontsSim_oids_mem (f : Nat) (oid : Nat) (r : FontRef)
    (fonts : List (FontSource × FontRef)) :
    ∀ (map : List (FontSource × Nat)) (olen nid : Nat),
      map.lookup f = some oid →
      fonts.lookup f = some r →
      (r, oid) ∈ (fontsSim map olen nid fonts).1 := by
  induction fonts with
  | nil =>
    intro map olen nid hm hf
    simp [List.lookup] at hf
  | cons hd rest ih =>
    intro map olen nid hm hf
    obtain ⟨src, r'⟩ := hd
    cases hfs : f == src with
    | true =>
      have : f = src := by simpa using hfs
      subst this
      rw [lookup_cons_self] at hf
      simp only [Option.some.injEq] at hf
      subst hf
      simp [fontsSim, hm]
    | false =>
      rw [lookup_cons_ne f src r' rest hfs] at hf
      cases hmsrc : map.lookup src with
      | some o =>
        simp only [fontsSim, hmsrc]
        exact List.mem_cons_of_mem _ (ih map olen nid hm hf)
      | none =>
        simp only [fontsSim, hmsrc]
        refine List.mem_cons_of_mem _ (ih _ _ _ ?_ hf)
        rw [lookup_append, hm]

theorem fontsSim_new (f : Nat) (r : FontRef) (fonts : List (FontSource × FontRef)) :
    ∀ (map : List (FontSource × Nat)) (olen nid : Nat),
      map.lookup f = none →
      fonts.lookup f = some r →
      ∃ oid pre post,
        ((fontsSim map olen nid fonts).2.2.2).lookup f = some oid ∧
        (r, oid) ∈ (fontsSim map olen nid fonts).1 ∧
        (fontsSim map olen nid fonts).2.1 =
          pre ++ (objHeader oid ++ fontBody f ++ endobjBytes) ++ post := by
  induction fonts with
  | nil =>
    intro map olen nid hm hf
    simp [List.lookup] at hf
  | cons hd rest ih =>
    intro map olen nid hm hf
    obtain ⟨src, r'⟩ := hd
    cases hfs : f == src with
    | true =>
      have : f = src := by simpa using hfs
      subst this
      rw [lookup_cons_self] at hf
      simp only [Option.some.injEq] at hf
      subst hf
      refine ⟨nid, [],
        (fontsSim (map ++ [(f, nid)])
          (olen + (objHeader nid ++ fontBody f ++ endobjBytes).length) (nid + 1)
          rest).2.1, ?_, ?_, ?_⟩
      · simp only [fontsSim, hm]
        refine fontsSim_map_keeps f nid rest _ _ _ ?_
        rw [lookup_append, hm, lookup_cons_self]
      · simp [fontsSim, hm]
      · simp [fontsSim, hm]
    | false =>
      rw [lookup_cons_ne f src r' rest hfs] at hf
      cases hmsrc : map.lookup src with
      | some o =>
        obtain ⟨oid, pre, post, h1, h2, h3⟩ := ih map olen nid hm hf
        exact ⟨oid, pre, post,
          by simpa only [fontsSim, hmsrc] using h1,
          by simp only [fontsSim, hmsrc]; exact List.mem_cons_of_mem _ h2,
          by simpa only [fontsSim, hmsrc] using h3⟩
      | none =>
        have hm2 : (map ++ [(src, nid)]).lookup f = none := by
          rw [lookup_append, hm, lookup_cons_ne f src nid [] hfs]
          rfl
        obtain ⟨oid, pre, post, h1, h2, h3⟩ :=
          ih (map ++ [(src, nid)])
            (olen + (objHeader nid ++ fontBody src ++ endobjBytes).length) (nid + 1)
            hm2 hf
        refine ⟨oid, (objHeader nid ++ fontBody src ++ endobjBytes) ++ pre, post,
          by simpa only [fontsSim, hmsrc] using h1,
          by simp only [fontsSim, hmsrc]; exact List.mem_cons_of_mem _ h2, ?_⟩
        simp only [fontsSim, hmsrc]
        rw [h3]
        simp [List.append_assoc]

theorem fontsSim_skips (f : Nat) (fonts : List (FontSource × FontRef)) :
    ∀ (map : List (FontSource × Nat)) (nid : Nat),
      (map.lookup f).isSome →
      f ∉ simNewKeys map nid fonts := by
  induction fonts with
  | nil =>
    intro map nid hm
    simp [simNewKeys]
  | cons hd rest ih =>
    intro map nid hm
    obtain ⟨src, r⟩ := hd
    cases hmsrc : map.lookup src with
    | some o =>
      simp only [simNewKeys, hmsrc]
      exact ih map nid hm
    | none =>
      simp only [simNewKeys, hmsrc]
      intro hmem
      rcases List.mem_cons.mp hmem with h | h
      · subst h
        rw [hmsrc] at hm
        simp at hm
      · refine ih (map ++ [(src, nid)]) (nid + 1) ?_ h
        rw [lookup_append]
        cases hfl : map.lookup f with
        | some v => simp
        | none =>
          rw [hfl] at hm
          simp at hm

/-- C8: when the same font descriptor `f` is resolved on two pages (each
page holding its own page-local reference for it), exactly one font object
for `f` is written across the document: the first page's finalization
writes its object frame into the output and records the descriptor-to-id
mapping; the second page's font loop resolves its own local reference to
the same recorded object id, writes no fresh object for `f` (its key is
not among the second page's newly written font keys), and the document map
ends with exactly one entry for `f`. -/
theorem font_dedup (pdf : Pdf) (f : FontSource) (wd1 ht1 wd2 ht2 : String)
    (ops1 ops2 : List CanvasOp) (r1 r2 : FontRef)
    (hmap : pdf.all_font_object_ids.lookup f = none)
    (h1 : (runOps ops1).fonts.lookup f = some r1)
    (h2 : (runOps ops2).fonts.lookup f = some r2) :
    ∃ pdf1 pdf2 oid pre post,
      render_page wd1 ht1 ops1 pdf = some pdf1 ∧
      render_page wd2 ht2 ops2 pdf1 = some pdf2 ∧
      pdf1.all_font_object_ids.lookup f = some oid ∧
      pdf1.output = pdf.output ++ pre
        ++ (objHeader oid ++ fontBody f ++ endobjBytes) ++ post ∧
      (r1, oid) ∈ (rpFontsRes pdf ops1).1 ∧
      (r2, oid) ∈ (rpFontsRes pdf1 ops2).1 ∧
      pdf2.all_font_object_ids.lookup f = some oid ∧
      pdf2.all_font_object_ids.countP (fun e => e.1 == f) = 1 ∧
      f ∉ simNewKeys pdf1.all_font_object_ids (rpOffs1 pdf1 ops2).length
            (runOps ops2).fonts := by
  obtain ⟨oid, pre', post', hl1, hmem1, hbytes⟩ :=
    fontsSim_new f r1 (runOps ops1).fonts pdf.all_font_object_ids
      (rpOut1 pdf ops1).length (rpOffs1 pdf ops1).length hmap h1
  set P1 : Pdf := renderSim wd1 ht1 ops1 pdf with hP1
  have hmap1 : P1.all_font_object_ids.lookup f = some oid := by
    rw [hP1]
    simp only [renderSim, rpFontsRes]
    exact hl1
  have hmap2 : (renderSim wd2 ht2 ops2 P1).all_font_object_ids.lookup f = some oid := by
    simp only [renderSim, rpFontsRes]
    exact fontsSim_map_keeps f oid (runOps ops2).fonts _ _ _ hmap1
  refine ⟨P1, renderSim wd2 ht2 ops2 P1, oid,
    rpContentFrame pdf ops1 ++ rpLenFrame pdf ops1 ++ pre',
    post' ++ (objHeader (rpPageId pdf ops1)
      ++ pageDictBody pdf.object_offsets.length wd1 ht1 (rpFontsRes pdf ops1).1
      ++ endobjBytes),
    by rw [hP1]; exact render_page_eq wd1 ht1 ops1 pdf,
    render_page_eq wd2 ht2 ops2 P1,
    hmap1, ?_, ?_, ?_, hmap2, ?_, ?_⟩
  · rw [hP1]
    simp only [renderSim, rpOut1]
    rw [show (rpFontsRes pdf ops1).2.1
        = pre' ++ (objHeader oid ++ fontBody f ++ endobjBytes) ++ post' from by
      simpa only [rpFontsRes] using hbytes]
    simp [List.append_assoc]
  · simpa only [rpFontsRes] using hmem1
  · simp only [rpFontsRes]
    exact fontsSim_oids_mem f oid r2 (runOps ops2).fonts _ _ _ hmap1 h2
  · have hc1 : P1.all_font_object_ids.countP (fun e => e.1 == f) = 1 := by
      rw [hP1]
      simp only [renderSim, rpFontsRes]
      rw [fontsSim_count, lookup_count_zero f _ hmap]
      simp [hmap, h1]
    simp only [renderSim, rpFontsRes]
    rw [fontsSim_count]
    rw [show List.lookup f P1.all_font_object_ids = some oid from hmap1, hc1]
    simp
  · exact fontsSim_skips f (runOps ops2).fonts _ _ (by rw [hmap1]; rfl)

/-- Witness for C8: the same built-in font on two one-font pages of a
fresh document yields one font object (id 5) referenced by both pages. -/
theorem font_dedup_witness :
    ∃ pdf1 pdf2 oid pre post,
      render_page "1" "2" [CanvasOp.getFont 0] Pdf.new = some pdf1 ∧
      render_page "3" "4" [CanvasOp.getFont 0] pdf1 = some pdf2 ∧
      pdf1.all_font_object_ids.lookup 0 = some oid ∧
      pdf1.output = Pdf.new.output ++ pre
        ++ (objHeader oid ++ fontBody 0 ++ endobjBytes) ++ post ∧
      (0, oid) ∈ (rpFontsRes Pdf.new [CanvasOp.getFont 0]).1 ∧
      (0, oid) ∈ (rpFontsRes pdf1 [CanvasOp.getFont 0]).1 ∧
      pdf2.all_font_object_ids.lookup 0 = some oid ∧
      pdf2.all_font_object_ids.countP (fun e => e.1 == 0) = 1 ∧
      0 ∉ simNewKeys pdf1.all_font_object_ids
            (rpOffs1 pdf1 [CanvasOp.getFont 0]).length
            (runOps [CanvasOp.getFont 0]).fonts :=
  font_dedup Pdf.new 0 "1" "2" "3" "4" [CanvasOp.getFont 0] [CanvasOp.getFont 0]
    0 0 (by decide) (by decide) (by decide)

theorem sliceEq_append (a b pat : List Char) (off : Nat)
    (hb : off + pat.length ≤ a.length) (h : sliceEq a off pat) :
    sliceEq (a ++ b) off pat := by
  unfold sliceEq at *
  rw [List.drop_append_of_le_length (by omega),
    List.take_append_of_le_length (by simp; omega)]
  exact h

theorem sliceEq_at (a pat rest : List Char) :
    sliceEq (a ++ (pat ++ rest)) a.length pat := by
  unfold sliceEq
  rw [List.drop_left]
  exact List.take_left pat rest

theorem sliceEq_prefix (l p q : List Char) (off : Nat)
    (h : sliceEq l off (p ++ q)) : sliceEq l off p := by
  unfold sliceEq at *
  have h2 : List.take p.length ((l.drop off).take (p ++ q).length)
      = List.take p.length (p ++ q) := by rw [h]
  rw [List.take_take] at h2
  have hmin : p.length ⊓ (p ++ q).length = p.length := by
    simp [List.length_append]
  rw [hmin] at h2
  rw [h2]
  exact List.take_left p q

theorem offsetsOk_congr (pdf pdf' : Pdf) (h : OffsetsOk pdf)
    (ho : pdf'.output = pdf.output)
    (hf : pdf'.object_offsets = pdf.object_offsets) :
    OffsetsOk pdf' := by
  intro i off hi
  rw [hf] at hi
  rw [ho]
  exact h i off hi

theorem offsetsOk_app (pdf : Pdf) (s : List Char) (h : OffsetsOk pdf) :
    OffsetsOk (pdf.app s) := by
  intro i off hi
  simp only [Pdf.app] at hi ⊢
  rcases h i off hi with h1 | ⟨h1, h2, h3⟩
  · exact Or.inl h1
  · exact Or.inr ⟨h1, by simp only [List.length_append]; omega,
      sliceEq_append _ _ _ _ h2 h3⟩

theorem offsetsOk_push_new (pdf : Pdf) (bs : List Char) (h : OffsetsOk pdf) :
    OffsetsOk { output := pdf.output
                  ++ (objHeader pdf.object_offsets.length ++ bs ++ endobjBytes)
                object_offsets := pdf.object_offsets ++ [((pdf.output.length : Int))]
                page_objects_ids := pdf.page_objects_ids
                all_font_object_ids := pdf.all_font_object_ids
                outline_items := pdf.outline_items
                document_info := pdf.document_info } := by
  intro i off hi
  simp only at hi ⊢
  rcases Nat.lt_or_ge i pdf.object_offsets.length with hlt | hge
  · rw [List.getElem?_append_left hlt] at hi
    rcases h i off hi with h1 | ⟨h1, h2, h3⟩
    · exact Or.inl h1
    · exact Or.inr ⟨h1, by simp only [List.length_append]; omega,
        sliceEq_append _ _ _ _ h2 h3⟩
  · rw [List.getElem?_append_right hge] at hi
    have hi0 : i - pdf.object_offsets.length = 0 ∧ off = ((pdf.output.length : Int)) := by
      cases hd : i - pdf.object_offsets.length with
      | zero =>
        rw [hd] at hi
        simp only [List.getElem?_cons_zero, Option.some.injEq] at hi
        exact ⟨rfl, hi.symm⟩
      | succ n =>
        rw [hd] at hi
        simp at hi
    have hie : i = pdf.object_offsets.length := by omega
    subst hie
    obtain ⟨-, hoff⟩ := hi0
    subst hoff
    refine Or.inr ⟨Int.natCast_nonneg _, ?_, ?_⟩
    · simp only [Int.toNat_natCast, List.length_append]
      omega
    · rw [Int.toNat_natCast,
        show objHeader pdf.object_offsets.length ++ bs ++ endobjBytes
          = objHeader pdf.object_offsets.length ++ (bs ++ endobjBytes) from by
            simp [List.append_assoc]]
      exact sliceEq_at _ _ _

theorem offsetsOk_write_new_object {T : Type} (body : Nat → Option (T × List Char))
    (pdf pdf' : Pdf) (r : T) (h : OffsetsOk pdf)
    (he : write_new_object body pdf = some (r, pdf')) : OffsetsOk pdf' := by
  unfold write_new_object write_object at he
  cases hb : body pdf.object_offsets.length with
  | none => rw [hb] at he; cases he
  | some rbs =>
    obtain ⟨rr, bs⟩ := rbs
    rw [hb] at he
    simp only [Option.some_bind, Pdf.app, Pdf.tell, Option.some.injEq,
      Prod.mk.injEq] at he
    obtain ⟨-, he2⟩ := he
    rw [← he2]
    exact offsetsOk_push_new pdf bs h
theorem offsetsOk_set_at (pdf : Pdf) (id : Nat) (bs : List Char)
    (h : OffsetsOk pdf) :
    OffsetsOk { output := pdf.output ++ (objHeader id ++ bs ++ endobjBytes)
                object_offsets := pdf.object_offsets.set id ((pdf.output.length : Int))
                page_objects_ids := pdf.page_objects_ids
                all_font_object_ids := pdf.all_font_object_ids
                outline_items := pdf.outline_items
                document_info := pdf.document_info } := by
  intro i off hi
  simp only at hi ⊢
  by_cases hii : id = i
  · subst hii
    rw [List.getElem?_set] at hi
    by_cases hlen : id < pdf.object_offsets.length
    · rw [if_pos rfl, if_pos hlen] at hi
      have hoff := Option.some.inj hi
      subst hoff
      refine Or.inr ⟨Int.natCast_nonneg _, ?_, ?_⟩
      · simp only [Int.toNat_natCast, List.length_append]
        omega
      · rw [Int.toNat_natCast,
          show objHeader id ++ bs ++ endobjBytes
            = objHeader id ++ (bs ++ endobjBytes) from by simp [List.append_assoc]]
        exact sliceEq_at _ _ _
    · rw [if_pos rfl, if_neg hlen] at hi
      cases hi
  · rw [List.getElem?_set_ne hii] at hi
    rcases h i off hi with h1 | ⟨h1, h2, h3⟩
    · exact Or.inl h1
    · exact Or.inr ⟨h1, by simp only [List.length_append]; omega,
        sliceEq_append _ _ _ _ h2 h3⟩

theorem offsetsOk_write_object_with_id {T : Type} (id : Nat)
    (body : Option (T × List Char)) (pdf pdf' : Pdf) (r : T) (h : OffsetsOk pdf)
    (he : write_object_with_id id body pdf = some (r, pdf')) : OffsetsOk pdf' := by
  unfold write_object_with_id write_object at he
  by_cases hg : pdf.object_offsets.getD id 0 = -1
  · rw [if_pos hg] at he
    cases hb : body with
    | none => rw [hb] at he; cases he
    | some rbs =>
      obtain ⟨rr, bs⟩ := rbs
      rw [hb] at he
      simp only [Option.some_bind, Pdf.app, Pdf.tell, Option.some.injEq,
        Prod.mk.injEq] at he
      obtain ⟨-, he2⟩ := he
      rw [← he2]
      exact offsetsOk_set_at pdf id bs h
  · rw [if_neg hg] at he
    cases he

theorem offsetsOk_push_sentinel (pdf : Pdf) (h : OffsetsOk pdf) :
    OffsetsOk { output := pdf.output
                object_offsets := pdf.object_offsets ++ [-1]
                page_objects_ids := pdf.page_objects_ids
                all_font_object_ids := pdf.all_font_object_ids
                outline_items := pdf.outline_items
                document_info := pdf.document_info } := by
  intro i off hi
  simp only at hi ⊢
  rcases Nat.lt_or_ge i pdf.object_offsets.length with hlt | hge
  · rw [List.getElem?_append_left hlt] at hi
    exact h i off hi
  · rw [List.getElem?_append_right hge] at hi
    cases hd : i - pdf.object_offsets.length with
    | zero =>
      rw [hd] at hi
      simp only [List.getElem?_cons_zero, Option.some.injEq] at hi
      exact Or.inl hi.symm
    | succ n =>
      rw [hd] at hi
      simp at hi

theorem xrefRows_some (offs : List Int) (h : ∀ o ∈ offs, 0 ≤ o) :
    ∃ rows, xrefRows offs = some rows := by
  induction offs with
  | nil => exact ⟨[], rfl⟩
  | cons o rest ih =>
    obtain ⟨rows, hr⟩ := ih (fun x hx => h x (by simp [hx]))
    refine ⟨pad10 o.toNat ++ " 00000 n \n".toList ++ rows, ?_⟩
    simp only [xrefRows, if_pos (h o (by simp)), hr]

theorem xrefRows_nonneg (offs : List Int) (rows : List Char)
    (h : xrefRows offs = some rows) : ∀ o ∈ offs, 0 ≤ o := by
  induction offs generalizing rows with
  | nil => simp
  | cons o rest ih =>
    intro x hx
    simp only [xrefRows] at h
    by_cases ho : 0 ≤ o
    · rw [if_pos ho] at h
      cases hr : xrefRows rest with
      | none => rw [hr] at h; cases h
      | some rows' =>
        rcases List.mem_cons.mp hx with h1 | h1
        · subst h1; exact ho
        · exact ih rows' hr x h1
    · rw [if_neg ho] at h
      cases h

theorem fontsSim_offs_nonneg (fonts : List (FontSource × FontRef)) :
    ∀ (map : List (FontSource × Nat)) (olen nid : Nat),
      ∀ o ∈ (fontsSim map olen nid fonts).2.2.1, 0 ≤ o := by
  induction fonts with
  | nil => intro map olen nid o ho; simp [fontsSim] at ho
  | cons hd rest ih =>
    intro map olen nid o ho
    obtain ⟨src, r⟩ := hd
    cases hm : map.lookup src with
    | some oid =>
      rw [show fontsSim map olen nid ((src, r) :: rest)
          = ((r, oid) :: (fontsSim map olen nid rest).1,
             (fontsSim map olen nid rest).2) from by simp [fontsSim, hm]] at ho
      exact ih map olen nid o ho
    | none =>
      simp only [fontsSim, hm] at ho
      rcases List.mem_cons.mp ho with h1 | h1
      · subst h1; exact Int.natCast_nonneg _
      · exact ih _ _ _ o h1

theorem lookup_none_iff (f : Nat) {β : Type} (m : List (Nat × β)) :
    m.lookup f = none ↔ f ∉ m.map Prod.fst := by
  induction m with
  | nil => simp [List.lookup]
  | cons kv m ih =>
    obtain ⟨k, v⟩ := kv
    cases hk : f == k with
    | true =>
      have : f = k := by simpa using hk
      subst this
      rw [lookup_cons_self]
      simp
    | false =>
      rw [lookup_cons_ne f k v m hk]
      have : f ≠ k := by simpa using (beq_eq_false_iff_ne (a := f) (b := k)).mp hk
      simp [ih, this]

theorem fontsSim_len_keys (fonts : List (FontSource × FontRef)) :
    ∀ (map : List (FontSource × Nat)) (olen nid : Nat),
      (fontsSim map olen nid fonts).2.2.1.length
        = (newCount (map.map Prod.fst) fonts).1 ∧
      (fontsSim map olen nid fonts).2.2.2.map Prod.fst
        = (newCount (map.map Prod.fst) fonts).2 := by
  induction fonts with
  | nil => intro map olen nid; simp [fontsSim, newCount]
  | cons hd rest ih =>
    intro map olen nid
    obtain ⟨src, r⟩ := hd
    cases hm : map.lookup src with
    | some oid =>
      have hmem : src ∈ map.map Prod.fst := by
        by_contra hc
        rw [← lookup_none_iff src map] at hc
        rw [hm] at hc
        cases hc
      simp only [fontsSim, hm, newCount, if_pos hmem]
      exact ih map olen nid
    | none =>
      have hmem : src ∉ map.map Prod.fst := (lookup_none_iff src map).mp hm
      simp only [fontsSim, hm, newCount, if_neg hmem]
      have hkeys : (map ++ [(src, nid)]).map Prod.fst = map.map Prod.fst ++ [src] := by
        simp
      obtain ⟨ihl, ihk⟩ := ih (map ++ [(src, nid)])
        (olen + (objHeader nid ++ fontBody src ++ endobjBytes).length) (nid + 1)
      rw [hkeys] at ihl ihk
      constructor
      · simp only [List.length_cons, ihl]
      · exact ihk

theorem write_new_object_some {T : Type} (body : Nat → Option (T × List Char))
    (r : T) (bs : List Char) (pdf : Pdf)
    (hb : body pdf.object_offsets.length = some (r, bs)) :
    write_new_object body pdf =
      some (r,
        { output := pdf.output
            ++ (objHeader pdf.object_offsets.length ++ bs ++ endobjBytes)
          object_offsets := pdf.object_offsets ++ [((pdf.output.length : Int))]
          page_objects_ids := pdf.page_objects_ids
          all_font_object_ids := pdf.all_font_object_ids
          outline_items := pdf.outline_items
          document_info := pdf.document_info }) := by
  simp [write_new_object, hb, write_object, Pdf.app, Pdf.tell]

theorem write_object_with_id_some {T : Type} (id : Nat) (r : T) (bs : List Char)
    (pdf : Pdf) (hg : pdf.object_offsets.getD id 0 = -1) :
    write_object_with_id id (some (r, bs)) pdf =
      some (r,
        { output := pdf.output ++ (objHeader id ++ bs ++ endobjBytes)
          object_offsets := pdf.object_offsets.set id ((pdf.output.length : Int))
          page_objects_ids := pdf.page_objects_ids
          all_font_object_ids := pdf.all_font_object_ids
          outline_items := pdf.outline_items
          document_info := pdf.document_info }) := by
  unfold write_object_with_id
  rw [if_pos hg]
  simp [write_object, Pdf.app, Pdf.tell]

theorem offsetsOk_writeFonts (fonts : List (FontSource × FontRef)) :
    ∀ (pdf pdf' : Pdf) (oids : List (FontRef × Nat)),
      OffsetsOk pdf → writeFonts fonts pdf = some (oids, pdf') → OffsetsOk pdf' := by
  induction fonts with
  | nil =>
    intro pdf pdf' oids h he
    simp only [writeFonts, Option.some.injEq, Prod.mk.injEq] at he
    obtain ⟨-, he2⟩ := he
    rw [← he2]
    exact h
  | cons hd rest ih =>
    intro pdf pdf' oids h he
    obtain ⟨src, r⟩ := hd
    cases hm : pdf.all_font_object_ids.lookup src with
    | some oid =>
      simp only [writeFonts, hm, Option.bind_eq_some, Option.some.injEq,
        Prod.mk.injEq] at he
      obtain ⟨op, hop, -, he2⟩ := he
      rw [← he2]
      exact ih pdf op.2 op.1 h hop
    | none =>
      simp only [writeFonts, hm, Option.bind_eq_some, Option.some.injEq,
        Prod.mk.injEq] at he
      obtain ⟨op, hop, op2, hop2, -, he2⟩ := he
      rw [← he2]
      have h1 : OffsetsOk op.2 :=
        offsetsOk_write_new_object (fun oid => some (oid, fontBody src))
          pdf op.2 op.1 h hop
      exact ih { op.2 with
          all_font_object_ids := op.2.all_font_object_ids ++ [(src, op.1)] }
        op2.2 op2.1 (offsetsOk_congr _ _ h1 rfl rfl) hop2

theorem offsetsOk_render_page (wd ht : String) (ops : List CanvasOp)
    (pdf pdf' : Pdf) (h : OffsetsOk pdf)
    (he : render_page wd ht ops pdf = some pdf') : OffsetsOk pdf' := by
  simp only [render_page, Option.bind_eq_some, Option.some.injEq] at he
  obtain ⟨a, hA, b, hB, c, hC, d, hD, he⟩ := he
  have h1 : OffsetsOk a.2 := offsetsOk_write_new_object _ pdf a.2 a.1 h hA
  have h2 : OffsetsOk b.2 := offsetsOk_write_new_object _ a.2 b.2 b.1 h1 hB
  have h3 : OffsetsOk c.2 := offsetsOk_writeFonts _ b.2 c.2 c.1 h2 hC
  have h4 : OffsetsOk d.2 :=
    offsetsOk_write_new_object (fun page_oid =>
      some (page_oid, pageDictBody a.1.1 wd ht c.1)) c.2 d.2 d.1 h3 hD
  rw [← he]
  exact offsetsOk_congr _ _ h4 rfl rfl

theorem offsetsOk_writeOutlineItems (items : List OutlineItem) :
    ∀ (i count pid fid lid : Nat) (pdf : Pdf) (res : Nat × Nat × Pdf),
      OffsetsOk pdf →
      writeOutlineItems items i count pid fid lid pdf = some res →
      OffsetsOk res.2.2 := by
  induction items with
  | nil =>
    intro i count pid fid lid pdf res h he
    simp only [writeOutlineItems, Option.some.injEq] at he
    rw [← he]
    exact h
  | cons item rest ih =>
    intro i count pid fid lid pdf res h he
    simp only [writeOutlineItems, Option.bind_eq_some] at he
    obtain ⟨a, hA, he⟩ := he
    exact ih _ _ _ _ _ a.2 res
      (offsetsOk_write_new_object _ pdf a.2 a.1 h hA) he

theorem offsetsOk_write_outlines (pdf pdf' : Pdf) (oid? : Option Nat)
    (h : OffsetsOk pdf) (he : write_outlines pdf = some (oid?, pdf')) :
    OffsetsOk pdf' := by
  unfold write_outlines at he
  by_cases hne : pdf.outline_items.isEmpty
  · rw [if_pos hne] at he
    simp only [Option.some.injEq, Prod.mk.injEq] at he
    obtain ⟨-, he2⟩ := he
    rw [← he2]
    exact h
  · rw [if_neg hne] at he
    simp only [Option.bind_eq_some, Option.some.injEq, Prod.mk.injEq] at he
    obtain ⟨a, hA, b, hB, -, he2⟩ := he
    rw [← he2]
    have hp : OffsetsOk { pdf with object_offsets := pdf.object_offsets ++ [-1] } :=
      offsetsOk_push_sentinel pdf h
    have h1 : OffsetsOk a.2.2 :=
      offsetsOk_writeOutlineItems _ _ _ _ _ _ _ a hp hA
    exact offsetsOk_write_object_with_id _ _ a.2.2 b.2 b.1 h1 hB

theorem offsetsOk_finish (now : Option String) (pdf pdf' : Pdf)
    (h : OffsetsOk pdf) (he : finish now pdf = some pdf') : OffsetsOk pdf' := by
  simp only [finish, Option.bind_eq_some, Option.some.injEq] at he
  obtain ⟨a, hA, b, hB, c, hC, d, hD, rows, hrows, he⟩ := he
  have h1 : OffsetsOk a.2 :=
    offsetsOk_write_object_with_id _ _ pdf a.2 a.1 h hA
  have h2 : OffsetsOk b.2 := by
    by_cases hinfo : a.2.document_info.isEmpty
    · rw [if_pos hinfo] at hB
      simp only [Option.some.injEq] at hB
      rw [← hB]
      exact h1
    · rw [if_neg hinfo] at hB
      exact offsetsOk_write_new_object _ a.2 b.2 b.1 h1 hB
  have h3 : OffsetsOk c.2 := offsetsOk_write_outlines b.2 c.2 c.1 h2 hC
  have h4 : OffsetsOk d.2 :=
    offsetsOk_write_object_with_id _ _ c.2 d.2 d.1 h3 hD
  rw [← he]
  exact offsetsOk_app _ _ (offsetsOk_app _ _ (offsetsOk_app _ _ h4))

theorem renderSim_offsets_low (wd ht : String) (ops : List CanvasOp) (pdf : Pdf)
    (i : Nat) (h : i < pdf.object_offsets.length) :
    (renderSim wd ht ops pdf).object_offsets[i]? = pdf.object_offsets[i]? := by
  simp only [renderSim, rpOffs1]
  rw [List.getElem?_append_left (by simp; omega),
    List.getElem?_append_left (by simp; omega),
    List.getElem?_append_left (by simp; omega),
    List.getElem?_append_left h]

theorem renderSim_offsets_tail_nonneg (wd ht : String) (ops : List CanvasOp)
    (pdf : Pdf) (i : Nat) (off : Int)
    (hi : (renderSim wd ht ops pdf).object_offsets[i]? = some off)
    (hge : pdf.object_offsets.length ≤ i) : 0 ≤ off := by
  simp only [renderSim, rpOffs1] at hi
  rw [List.append_assoc, List.append_assoc, List.append_assoc,
    List.getElem?_append_right hge] at hi
  have hmem := List.getElem?_mem hi
  simp only [List.mem_append, List.mem_singleton] at hmem
  rcases hmem with rfl | rfl | hfr | rfl
  · exact Int.natCast_nonneg _
  · exact Int.natCast_nonneg _
  · exact fontsSim_offs_nonneg _ _ _ _ off (by simpa only [rpFontsRes] using hfr)
  · exact Int.natCast_nonneg _

theorem render_page_effects (wd ht : String) (ops : List CanvasOp) (pdf : Pdf) :
    (renderSim wd ht ops pdf).object_offsets.length
      = pdf.object_offsets.length + 3
        + (newCount (pdf.all_font_object_ids.map Prod.fst) (runOps ops).fonts).1 ∧
    (renderSim wd ht ops pdf).all_font_object_ids.map Prod.fst
      = (newCount (pdf.all_font_object_ids.map Prod.fst) (runOps ops).fonts).2 ∧
    (renderSim wd ht ops pdf).outline_items.length
      = pdf.outline_items.length + (runOps ops).items.length ∧
    (renderSim wd ht ops pdf).document_info = pdf.document_info := by
  obtain ⟨hl, hk⟩ := fontsSim_len_keys (runOps ops).fonts pdf.all_font_object_ids
    (rpOut1 pdf ops).length (rpOffs1 pdf ops).length
  refine ⟨?_, ?_, by simp [renderSim], rfl⟩
  · simp only [renderSim, rpOffs1, List.length_append, List.length_cons,
      List.length_nil]
    rw [show (rpFontsRes pdf ops).2.2.1.length
        = (newCount (pdf.all_font_object_ids.map Prod.fst) (runOps ops).fonts).1 from by
      simpa only [rpFontsRes] using hl]
    omega
  · simp only [renderSim, rpFontsRes]
    exact hk

theorem ready_new : ReadyToFinish Pdf.new := by
  refine ⟨by decide, by decide, by decide, by decide, ?_, by decide⟩
  intro i off hi h3
  rw [show Pdf.new.object_offsets = [-1, -1, -1] from rfl,
    List.getElem?_eq_none (by simp; omega)] at hi
  cases hi

theorem offsetsOk_new : OffsetsOk Pdf.new := by
  intro i off hi
  left
  rw [show Pdf.new.object_offsets = [-1, -1, -1] from rfl] at hi
  rcases i with _ | _ | _ | i
  · simp only [List.getElem?_cons_zero, Option.some.injEq] at hi
    omega
  · simp only [List.getElem?_cons_succ, List.getElem?_cons_zero,
      Option.some.injEq] at hi
    omega
  · simp only [List.getElem?_cons_succ, List.getElem?_cons_zero,
      Option.some.injEq] at hi
    omega
  · simp at hi

theorem ready_render_page (wd ht : String) (ops : List CanvasOp) (pdf : Pdf)
    (h : ReadyToFinish pdf) : ReadyToFinish (renderSim wd ht ops pdf) := by
  obtain ⟨hlen, h0, h1, h2, hpos, hres⟩ := h
  refine ⟨?_, ?_, ?_, ?_, ?_, ?_⟩
  · have := (render_page_effects wd ht ops pdf).1
    omega
  · rw [renderSim_offsets_low wd ht ops pdf 0 (by omega)]
    exact h0
  · rw [renderSim_offsets_low wd ht ops pdf 1 (by omega)]
    exact h1
  · rw [renderSim_offsets_low wd ht ops pdf 2 (by omega)]
    exact h2
  · intro i off hi h3
    by_cases hlt : i < pdf.object_offsets.length
    · rw [renderSim_offsets_low wd ht ops pdf i hlt] at hi
      exact hpos i off hi h3
    · exact renderSim_offsets_tail_nonneg wd ht ops pdf i off hi (by omega)
  · intro it hit
    simp only [renderSim, List.mem_append] at hit
    rcases hit with hit | hit
    · exact hres it hit
    · obtain ⟨x, hx, hxe⟩ := List.mem_map.mp hit
      rw [← hxe]
      rfl

theorem objHeader_len_pos (id : Nat) : 0 < (objHeader id).length := by
  simp only [objHeader, List.length_append]
  have : (" 0 obj\n".toList).length = 7 := by decide
  omega

theorem mem_drop_one_index {α : Type} (l : List α) (o : α) (ho : o ∈ l.drop 1) :
    ∃ i, 1 ≤ i ∧ l[i]? = some o := by
  obtain ⟨j, hj⟩ := List.mem_iff_getElem?.mp ho
  rw [List.getElem?_drop] at hj
  exact ⟨1 + j, by omega, hj⟩

theorem finish_catalog_xref (infoId : Option Nat) (outId : Option Nat) (pdfC : Pdf)
    (hOkC : OffsetsOk pdfC)
    (hC1 : pdfC.object_offsets[1]? = some (-1))
    (hCpos : ∀ i off, pdfC.object_offsets[i]? = some off → 1 ≤ i → i ≠ 1 → 0 ≤ off) :
    ∃ pdf' mid rows,
      ((write_object_with_id ROOT_OBJECT_ID (some ((), catalogBody outId)) pdfC).bind
        (fun d =>
          let startxref := d.2.tell
          let pdf5 := d.2.app (xrefHeaderBytes d.2.object_offsets.length)
          (xrefRows (pdf5.object_offsets.drop 1)).bind
          (fun rows =>
            some ((pdf5.app rows).app
              (trailerBytes pdf5.object_offsets.length infoId startxref))))) = some pdf' ∧
      pdf'.object_offsets.length = pdfC.object_offsets.length ∧
      xrefRows (pdf'.object_offsets.drop 1) = some rows ∧
      pdf'.output = mid ++ xrefHeaderBytes pdf'.object_offsets.length ++ rows
        ++ trailerBytes pdf'.object_offsets.length infoId mid.length ∧
      mid = pdfC.output ++ (objHeader ROOT_OBJECT_ID ++ catalogBody outId ++ endobjBytes) ∧
      (∀ i off, pdf'.object_offsets[i]? = some off → 1 ≤ i →
        0 ≤ off ∧ off.toNat < mid.length) := by
  have hlen1 : 1 < pdfC.object_offsets.length := (List.getElem?_eq_some.mp hC1).1
  have hg : pdfC.object_offsets.getD ROOT_OBJECT_ID 0 = -1 := by
    rw [List.getD_eq_getElem?_getD]
    rw [show ROOT_OBJECT_ID = 1 from rfl, hC1]
    rfl
  have hD := write_object_with_id_some ROOT_OBJECT_ID () (catalogBody outId) pdfC hg
  set pdfD : Pdf :=
    { output := pdfC.output ++ (objHeader ROOT_OBJECT_ID ++ catalogBody outId ++ endobjBytes)
      object_offsets := pdfC.object_offsets.set ROOT_OBJECT_ID ((pdfC.output.length : Int))
      page_objects_ids := pdfC.page_objects_ids
      all_font_object_ids := pdfC.all_font_object_ids
      outline_items := pdfC.outline_items
      document_info := pdfC.document_info } with hpdfD
  have hDoffs : pdfD.object_offsets
      = pdfC.object_offsets.set ROOT_OBJECT_ID ((pdfC.output.length : Int)) := by
    rw [hpdfD]
  have hDpos : ∀ i off, pdfD.object_offsets[i]? = some off → 1 ≤ i → 0 ≤ off := by
    intro i off hi h1i
    rw [hDoffs] at hi
    by_cases h1 : i = 1
    · subst h1
      rw [show ROOT_OBJECT_ID = 1 from rfl, List.getElem?_set, if_pos rfl,
        if_pos hlen1] at hi
      have := Option.some.inj hi
      rw [← this]
      exact Int.natCast_nonneg _
    · rw [show ROOT_OBJECT_ID = 1 from rfl, List.getElem?_set_ne (fun he => h1 he.symm)] at hi
      exact hCpos i off hi h1i h1
  have hOkD : OffsetsOk pdfD :=
    offsetsOk_write_object_with_id ROOT_OBJECT_ID _ pdfC pdfD () hOkC (by rw [hD, hpdfD])
  have hrows_all : ∀ o ∈ pdfD.object_offsets.drop 1, 0 ≤ o := by
    intro o ho
    obtain ⟨j, hj1, hj⟩ := mem_drop_one_index _ o ho
    exact hDpos j o hj hj1
  obtain ⟨rows, hrows⟩ := xrefRows_some _ hrows_all
  refine ⟨((pdfD.app (xrefHeaderBytes pdfD.object_offsets.length)).app rows).app
      (trailerBytes pdfD.object_offsets.length infoId pdfD.output.length),
    pdfD.output, rows, ?_, by simp [Pdf.app, hDoffs], ?_, ?_, by rw [hpdfD], ?_⟩
  · rw [hD]
    simp only [Option.some_bind]
    have happ : (pdfD.app (xrefHeaderBytes pdfD.object_offsets.length)).object_offsets
        = pdfD.object_offsets := by simp [Pdf.app]
    rw [happ, hrows]
    simp only [Option.some_bind, Pdf.tell, Pdf.app]
  · simpa [Pdf.app] using hrows
  · simp [Pdf.app, Pdf.tell, List.append_assoc]
  · intro i off hi h1i
    have hioff : pdfD.object_offsets[i]? = some off := by
      simpa [Pdf.app] using hi
    refine ⟨hDpos i off hioff h1i, ?_⟩
    rcases hOkD i off hioff with hc | ⟨-, hb, -⟩
    · have := hDpos i off hioff h1i
      omega
    · have hpos := objHeader_len_pos i
      have : pdfD.output.length = (pdfC.output
          ++ (objHeader ROOT_OBJECT_ID ++ catalogBody outId ++ endobjBytes)).length := by
        rw [hpdfD]
      omega

theorem finish_tail_spec (infoId : Option Nat) (pdfB : Pdf)
    (hOkB : OffsetsOk pdfB)
    (hlenB : 3 ≤ pdfB.object_offsets.length)
    (hB1 : pdfB.object_offsets[1]? = some (-1))
    (hBpos : ∀ i off, pdfB.object_offsets[i]? = some off → 1 ≤ i → i ≠ 1 → 0 ≤ off)
    (hBres : ∀ it ∈ pdfB.outline_items, it.page.isSome = true) :
    ∃ pdf' mid rows,
      ((write_outlines pdfB).bind
        (fun c =>
          (write_object_with_id ROOT_OBJECT_ID (some ((), catalogBody c.1)) c.2).bind
          (fun d =>
            let startxref := d.2.tell
            let pdf5 := d.2.app (xrefHeaderBytes d.2.object_offsets.length)
            (xrefRows (pdf5.object_offsets.drop 1)).bind
            (fun rows =>
              some ((pdf5.app rows).app
                (trailerBytes pdf5.object_offsets.length infoId startxref)))))) = some pdf' ∧
      pdf'.object_offsets.length = pdfB.object_offsets.length
        + (if pdfB.outline_items.isEmpty then 0 else pdfB.outline_items.length + 1) ∧
      xrefRows (pdf'.object_offsets.drop 1) = some rows ∧
      pdf'.output = mid ++ xrefHeaderBytes pdf'.object_offsets.length ++ rows
        ++ trailerBytes pdf'.object_offsets.length infoId mid.length ∧
      (∀ i off, pdf'.object_offsets[i]? = some off → 1 ≤ i →
        0 ≤ off ∧ off.toNat < mid.length) := by
  by_cases houtl : pdfB.outline_items.isEmpty
  · have hwo : write_outlines pdfB = some (none, pdfB) := by
      rw [write_outlines, if_pos houtl]
    obtain ⟨pdf', mid, rows, heq, hlen, hrows, hout, hmid, hbound⟩ :=
      finish_catalog_xref infoId none pdfB hOkB hB1 hBpos
    refine ⟨pdf', mid, rows, ?_, ?_, hrows, hout, hbound⟩
    · rw [hwo]
      simp only [Option.some_bind]
      exact heq
    · rw [if_pos houtl]
      simpa using hlen
  · obtain ⟨bytes, offs, pdfC, hwo, hchain, houtC, hoffsC, hofflen, hoffpos,
      -, -, hitemsC, -⟩ := write_outlines_spec pdfB houtl hBres
    have hlenC : pdfC.object_offsets.length
        = pdfB.object_offsets.length + 1 + pdfB.outline_items.length := by
      rw [hoffsC]
      simp [hofflen]
      omega
    have hpidlt : pdfB.object_offsets.length
        < ((pdfB.object_offsets ++ [-1]) ++ offs).length := by
      simp
    have hC1 : pdfC.object_offsets[1]? = some (-1) := by
      rw [hoffsC, List.getElem?_set_ne (by omega),
        List.getElem?_append_left (by simp; omega),
        List.getElem?_append_left (by omega)]
      exact hB1
    have hCpos : ∀ i off, pdfC.object_offsets[i]? = some off → 1 ≤ i → i ≠ 1 →
        0 ≤ off := by
      intro i off hi h1i hne1
      rw [hoffsC] at hi
      by_cases hip : i = pdfB.object_offsets.length
      · subst hip
        rw [List.getElem?_set, if_pos rfl, if_pos hpidlt] at hi
        have := Option.some.inj hi
        rw [← this]
        exact Int.natCast_nonneg _
      · rw [List.getElem?_set_ne (fun he => hip he.symm)] at hi
        rcases Nat.lt_or_ge i pdfB.object_offsets.length with hlt | hge
        · rw [List.getElem?_append_left (by simp; omega),
            List.getElem?_append_left hlt] at hi
          exact hBpos i off hi h1i hne1
        · rw [List.getElem?_append_right (by simp; omega)] at hi
          exact hoffpos off (List.getElem?_mem hi)
    have hOkC : OffsetsOk pdfC := offsetsOk_write_outlines pdfB pdfC _ hOkB hwo
    obtain ⟨pdf', mid, rows, heq, hlen, hrows, hout, hmid, hbound⟩ :=
      finish_catalog_xref infoId (some pdfB.object_offsets.length) pdfC hOkC hC1 hCpos
    refine ⟨pdf', mid, rows, ?_, ?_, hrows, hout, hbound⟩
    · rw [hwo]
      simp only [Option.some_bind]
      exact heq
    · rw [hlen, hlenC, if_neg houtl]
      omega

theorem finish_spec (now : Option String) (pdf : Pdf)
    (hOk : OffsetsOk pdf) (hr : ReadyToFinish pdf) :
    ∃ pdf' mid rows,
      finish now pdf = some pdf' ∧
      pdf'.object_offsets.length = pdf.object_offsets.length
        + (if pdf.document_info.isEmpty then 0 else 1)
        + (if pdf.outline_items.isEmpty then 0
           else pdf.outline_items.length + 1) ∧
      xrefRows (pdf'.object_offsets.drop 1) = some rows ∧
      pdf'.output = mid ++ xrefHeaderBytes pdf'.object_offsets.length ++ rows
        ++ trailerBytes pdf'.object_offsets.length
            (if pdf.document_info.isEmpty then none
             else some pdf.object_offsets.length)
            mid.length ∧
      (∀ i off, pdf'.object_offsets[i]? = some off → 1 ≤ i →
        0 ≤ off ∧ off.toNat < mid.length) := by
  obtain ⟨hlen3, h0s, h1s, h2s, hpos, hres⟩ := hr
  have hg2 : pdf.object_offsets.getD PAGES_OBJECT_ID 0 = -1 := by
    rw [List.getD_eq_getElem?_getD, show PAGES_OBJECT_ID = 2 from rfl, h2s]
    rfl
  have hA := write_object_with_id_some PAGES_OBJECT_ID ()
    (pagesBody pdf.page_objects_ids) pdf hg2
  set pdfA : Pdf :=
    { output := pdf.output
        ++ (objHeader PAGES_OBJECT_ID ++ pagesBody pdf.page_objects_ids
            ++ endobjBytes)
      object_offsets :=
        pdf.object_offsets.set PAGES_OBJECT_ID ((pdf.output.length : Int))
      page_objects_ids := pdf.page_objects_ids
      all_font_object_ids := pdf.all_font_object_ids
      outline_items := pdf.outline_items
      document_info := pdf.document_info } with hpdfA
  have hAinfo : pdfA.document_info = pdf.document_info := by rw [hpdfA]
  have hAitems : pdfA.outline_items = pdf.outline_items := by rw [hpdfA]
  have hAlen : pdfA.object_offsets.length = pdf.object_offsets.length := by
    rw [hpdfA]
    simp
  have hOkA : OffsetsOk pdfA :=
    offsetsOk_write_object_with_id PAGES_OBJECT_ID _ pdf pdfA () hOk hA
  have hAlen3 : 3 ≤ pdfA.object_offsets.length := by
    rw [hAlen]
    exact hlen3
  have hA1 : pdfA.object_offsets[1]? = some (-1) := by
    simp only [hpdfA]
    rw [List.getElem?_set_ne (by decide)]
    exact h1s
  have hApos : ∀ i off, pdfA.object_offsets[i]? = some off → 1 ≤ i → i ≠ 1 →
      0 ≤ off := by
    intro i off hi h1i hne
    simp only [hpdfA] at hi
    by_cases hi2 : i = PAGES_OBJECT_ID
    · subst hi2
      rw [List.getElem?_set, if_pos rfl,
        if_pos (by show 2 < pdf.object_offsets.length; omega)] at hi
      have := Option.some.inj hi
      rw [← this]
      exact Int.natCast_nonneg _
    · rw [List.getElem?_set_ne (fun he => hi2 he.symm)] at hi
      have hi2' : i ≠ 2 := fun h => hi2 h
      exact hpos i off hi (by omega)
  have hAres : ∀ it ∈ pdfA.outline_items, it.page.isSome = true := by
    rw [hAitems]
    exact hres
  by_cases hinfo : pdf.document_info.isEmpty
  · have hBif : (if pdfA.document_info.isEmpty then some ((none : Option Nat), pdfA)
        else write_new_object
          (fun ioid => some (some ioid, infoBody pdfA.document_info now)) pdfA)
        = some (none, pdfA) := by
      rw [hAinfo, if_pos hinfo]
    obtain ⟨pdf', mid, rows, heq, hlenF, hrows, hout, hbound⟩ :=
      finish_tail_spec none pdfA hOkA hAlen3 hA1 hApos hAres
    refine ⟨pdf', mid, rows, ?_, ?_, hrows, ?_, hbound⟩
    · simp only [finish]
      rw [hA]
      simp only [Option.some_bind]
      rw [hBif]
      simp only [Option.some_bind]
      exact heq
    · rw [hlenF, hAitems, hAlen, if_pos hinfo]
      omega
    · rw [if_pos hinfo]
      exact hout
  · have hbodyB : (fun ioid =>
          some ((some ioid : Option Nat), infoBody pdfA.document_info now))
          pdfA.object_offsets.length
        = some (some pdfA.object_offsets.length,
            infoBody pdfA.document_info now) := rfl
    have hB := write_new_object_some
      (fun ioid => some ((some ioid : Option Nat), infoBody pdfA.document_info now))
      (some pdfA.object_offsets.length)
      (infoBody pdfA.document_info now) pdfA hbodyB
    set pdfB : Pdf :=
      { output := pdfA.output
          ++ (objHeader pdfA.object_offsets.length
              ++ infoBody pdfA.document_info now ++ endobjBytes)
        object_offsets := pdfA.object_offsets ++ [((pdfA.output.length : Int))]
        page_objects_ids := pdfA.page_objects_ids
        all_font_object_ids := pdfA.all_font_object_ids
        outline_items := pdfA.outline_items
        document_info := pdfA.document_info } with hpdfB
    have hBif : (if pdfA.document_info.isEmpty then some ((none : Option Nat), pdfA)
        else write_new_object
          (fun ioid => some (some ioid, infoBody pdfA.document_info now)) pdfA)
        = some (some pdfA.object_offsets.length, pdfB) := by
      rw [if_neg (by rw [hAinfo]; exact hinfo), hB]
    have hBitems : pdfB.outline_items = pdf.outline_items := by
      simp only [hpdfB]
    have hBlen : pdfB.object_offsets.length = pdf.object_offsets.length + 1 := by
      simp only [hpdfB]
      simp [hAlen]
    have hBlen3 : 3 ≤ pdfB.object_offsets.length := by
      rw [hBlen]
      omega
    have hB1 : pdfB.object_offsets[1]? = some (-1) := by
      simp only [hpdfB]
      rw [List.getElem?_append_left (by rw [hAlen]; omega)]
      exact hA1
    have hBpos : ∀ i off, pdfB.object_offsets[i]? = some off → 1 ≤ i → i ≠ 1 →
        0 ≤ off := by
      intro i off hi h1i hne
      simp only [hpdfB] at hi
      rcases Nat.lt_or_ge i pdfA.object_offsets.length with hlt | hge
      · rw [List.getElem?_append_left hlt] at hi
        exact hApos i off hi h1i hne
      · rw [List.getElem?_append_right hge] at hi
        have hmem := List.getElem?_mem hi
        simp only [List.mem_singleton] at hmem
        rw [hmem]
        exact Int.natCast_nonneg _
    have hOkB : OffsetsOk pdfB := offsetsOk_write_new_object _ pdfA pdfB _ hOkA hB
    have hBres : ∀ it ∈ pdfB.outline_items, it.page.isSome = true := by
      rw [hBitems]
      exact hres
    obtain ⟨pdf', mid, rows, heq, hlenF, hrows, hout, hbound⟩ :=
      finish_tail_spec (some pdfA.object_offsets.length) pdfB hOkB hBlen3 hB1
        hBpos hBres
    refine ⟨pdf', mid, rows, ?_, ?_, hrows, ?_, hbound⟩
    · simp only [finish]
      rw [hA]
      simp only [Option.some_bind]
      rw [hBif]
      simp only [Option.some_bind]
      exact heq
    · rw [hlenF, hBitems, hBlen, if_neg hinfo]
    · rw [if_neg hinfo, ← hAlen]
      exact hout

theorem runPages_inv (ps : List PageSpec) :
    ∀ (pdf : Pdf), OffsetsOk pdf → ReadyToFinish pdf →
    ∃ pdf', runPages ps pdf = some pdf' ∧
      OffsetsOk pdf' ∧ ReadyToFinish pdf' ∧
      pdf'.object_offsets.length = pdf.object_offsets.length
        + (docCounts ps (pdf.all_font_object_ids.map Prod.fst)).1 ∧
      pdf'.all_font_object_ids.map Prod.fst
        = (docCounts ps (pdf.all_font_object_ids.map Prod.fst)).2.1 ∧
      pdf'.outline_items.length = pdf.outline_items.length
        + (docCounts ps (pdf.all_font_object_ids.map Prod.fst)).2.2 ∧
      pdf'.document_info = pdf.document_info := by
  induction ps with
  | nil =>
    intro pdf hOk hr
    exact ⟨pdf, rfl, hOk, hr, by simp [docCounts], by simp [docCounts],
      by simp [docCounts], rfl⟩
  | cons p ps ih =>
    intro pdf hOk hr
    have heq := render_page_eq p.width p.height p.ops pdf
    set q := renderSim p.width p.height p.ops pdf with hq
    have hOk2 : OffsetsOk q := offsetsOk_render_page _ _ _ pdf q hOk heq
    have hr2 : ReadyToFinish q := ready_render_page _ _ _ pdf hr
    obtain ⟨hlenq, hkeysq, hitemsq, hinfoq⟩ :=
      render_page_effects p.width p.height p.ops pdf
    obtain ⟨pdf', hrun, hOk3, hr3, hlen3, hkeys3, hitems3, hinfo3⟩ :=
      ih q hOk2 hr2
    refine ⟨pdf', ?_, hOk3, hr3, ?_, ?_, ?_, ?_⟩
    · show (render_page p.width p.height p.ops pdf).bind
        (fun x => runPages ps x) = some pdf'
      rw [heq]
      simp only [Option.some_bind]
      exact hrun
    · rw [hlen3, hkeysq, hlenq]
      simp only [docCounts]
      omega
    · rw [hkeys3, hkeysq]
      simp only [docCounts]
    · rw [hitems3, hkeysq, hitemsq]
      simp only [docCounts]
      omega
    · rw [hinfo3]
      exact hinfoq

/-- C4: for every sequence of page renders from a fresh document followed
by a successful `finish`, the emitted cross-reference table has exactly
`3 + (objects written)` entries — the three reserved slots plus, per page,
the content stream, its length object, the page dictionary and one object
per font descriptor not seen before, plus (when outline items exist) one
object per item and the outline root — and every entry except index 0 is a
non-negative offset strictly less than the `startxref` value written in
the trailer, the position where the `xref` keyword begins. -/
theorem xref_table_shape (ps : List PageSpec) (now : Option String)
    (pdfR pdf' : Pdf)
    (hrun : runPages ps Pdf.new = some pdfR)
    (hfin : finish now pdfR = some pdf') :
    ∃ mid rows,
      xrefRows (pdf'.object_offsets.drop 1) = some rows ∧
      pdf'.object_offsets.length = 3 + (docCounts ps []).1
        + (if (docCounts ps []).2.2 = 0 then 0
           else (docCounts ps []).2.2 + 1) ∧
      pdf'.output = mid ++ xrefHeaderBytes pdf'.object_offsets.length ++ rows
        ++ trailerBytes pdf'.object_offsets.length none mid.length ∧
      (∀ i off, pdf'.object_offsets[i]? = some off → 1 ≤ i →
        0 ≤ off ∧ off.toNat < mid.length) := by
  obtain ⟨pdfR0, hrun0, hOkR, hrR, hlenR, hkeysR, hitemsR, hinfoR⟩ :=
    runPages_inv ps Pdf.new offsetsOk_new ready_new
  rw [hrun] at hrun0
  have hpdfR0 := Option.some.inj hrun0
  subst hpdfR0
  rw [show Pdf.new.all_font_object_ids.map Prod.fst = ([] : List FontSource)
    from rfl] at hlenR hitemsR
  rw [show Pdf.new.object_offsets.length = 3 from rfl] at hlenR
  rw [show Pdf.new.outline_items.length = 0 from rfl, Nat.zero_add] at hitemsR
  rw [show Pdf.new.document_info = ([] : List (String × String)) from rfl]
    at hinfoR
  obtain ⟨pdf'0, mid, rows, hfin0, hlenF, hrows, hout, hbound⟩ :=
    finish_spec now pdfR hOkR hrR
  rw [hfin] at hfin0
  have hpdf'0 := Option.some.inj hfin0
  subst hpdf'0
  have hinfoE : pdfR.document_info.isEmpty = true := by rw [hinfoR]; rfl
  refine ⟨mid, rows, hrows, ?_, ?_, hbound⟩
  · rw [hlenF, hlenR, hinfoE]
    by_cases hz : (docCounts ps ([] : List FontSource)).2.2 = 0
    · have hitE : pdfR.outline_items.isEmpty = true := by
        rw [List.isEmpty_iff, ← List.length_eq_zero]
        omega
      rw [hitE, if_pos hz]
      simp
    · have hitE : pdfR.outline_items.isEmpty = false := by
        rw [List.isEmpty_eq_false_iff_exists_mem]
        have : pdfR.outline_items ≠ [] := by
          intro h
          rw [h] at hitemsR
          simp at hitemsR
          omega
        exact List.exists_mem_of_ne_nil _ this
      rw [hitE, if_neg hz, hitemsR]
      simp
  · rw [hout, hinfoE]
    simp

set_option maxRecDepth 100000 in
theorem xref_table_shape_witness :
    ∃ mid rows,
      xrefRows (demoDoc.object_offsets.drop 1) = some rows ∧
      demoDoc.object_offsets.length = 3 + (docCounts [] []).1
        + (if (docCounts [] []).2.2 = 0 then 0
           else (docCounts [] []).2.2 + 1) ∧
      demoDoc.output = mid ++ xrefHeaderBytes demoDoc.object_offsets.length
        ++ rows
        ++ trailerBytes demoDoc.object_offsets.length none mid.length ∧
      (∀ i off, demoDoc.object_offsets[i]? = some off → 1 ≤ i →
        0 ≤ off ∧ off.toNat < mid.length) :=
  xref_table_shape [] none Pdf.new demoDoc rfl (by decide)

theorem offsetsOk_round_trip (pdf : Pdf) (h : OffsetsOk pdf) :
    ∀ (i : Nat) (off : Int), pdf.object_offsets[i]? = some off → 0 ≤ off →
      sliceEq pdf.output off.toNat
        ((toString i).toList ++ " 0 obj".toList) := by
  intro i off hi hnn
  rcases h i off hi with hneg | ⟨-, -, hslice⟩
  · omega
  · have hsplit : objHeader i
        = ((toString i).toList ++ " 0 obj".toList) ++ "\n".toList := by
      unfold objHeader
      rw [List.append_assoc]
      congr 1
    rw [hsplit] at hslice
    exact sliceEq_prefix _ _ _ _ hslice

/-- C5: for every object id allocated and written — whether through
allocate-and-write (`write_new_object`: content streams, length objects,
fonts, page dictionaries, outline items, the info object) or through
write-at-reserved-id (`write_object_with_id`: the catalog, the pages root
and the outline root, all written during `finish`) — the offset recorded
in the slot table for that id is the output position of the start of the
object: both in every state reached by page renders from a fresh document
and in the finished document, the bytes of the output beginning at the
recorded offset are exactly the literal sequence `<id> 0 obj`. -/
theorem recorded_offset_round_trip (ps : List PageSpec) (now : Option String)
    (pdfR pdf' : Pdf)
    (hrun : runPages ps Pdf.new = some pdfR)
    (hfin : finish now pdfR = some pdf') :
    (∀ (i : Nat) (off : Int), pdfR.object_offsets[i]? = some off → 0 ≤ off →
      sliceEq pdfR.output off.toNat
        ((toString i).toList ++ " 0 obj".toList)) ∧
    (∀ (i : Nat) (off : Int), pdf'.object_offsets[i]? = some off → 0 ≤ off →
      sliceEq pdf'.output off.toNat
        ((toString i).toList ++ " 0 obj".toList)) := by
  obtain ⟨pdfR0, hrun0, hOkR, -, -, -, -, -⟩ :=
    runPages_inv ps Pdf.new offsetsOk_new ready_new
  rw [hrun] at hrun0
  have hpdfR0 := Option.some.inj hrun0
  subst hpdfR0
  exact ⟨offsetsOk_round_trip pdfR hOkR,
    offsetsOk_round_trip pdf' (offsetsOk_finish now pdfR pdf' hOkR hfin)⟩

set_option maxRecDepth 100000 in
theorem recorded_offset_round_trip_witness :
    sliceEq demoPage.output (demoPage.object_offsets.getD 3 0).toNat
      ((toString 3).toList ++ " 0 obj".toList) ∧
    sliceEq demoPageDoc.output (demoPageDoc.object_offsets.getD 1 0).toNat
      ((toString 1).toList ++ " 0 obj".toList) ∧
    sliceEq demoPageDoc.output (demoPageDoc.object_offsets.getD 2 0).toNat
      ((toString 2).toList ++ " 0 obj".toList) ∧
    sliceEq demoPageDoc.output (demoPageDoc.object_offsets.getD 6 0).toNat
      ((toString 6).toList ++ " 0 obj".toList) :=
  ⟨(recorded_offset_round_trip [⟨"1", "2", [CanvasOp.addOutline "t"]⟩] none
      demoPage demoPageDoc (by decide) (by decide)).1 3
      (demoPage.object_offsets.getD 3 0) (by decide) (by decide),
   (recorded_offset_round_trip [⟨"1", "2", [CanvasOp.addOutline "t"]⟩] none
      demoPage demoPageDoc (by decide) (by decide)).2 1
      (demoPageDoc.object_offsets.getD 1 0) (by decide) (by decide),
   (recorded_offset_round_trip [⟨"1", "2", [CanvasOp.addOutline "t"]⟩] none
      demoPage demoPageDoc (by decide) (by decide)).2 2
      (demoPageDoc.object_offsets.getD 2 0) (by decide) (by decide),
   (recorded_offset_round_trip [⟨"1", "2", [CanvasOp.addOutline "t"]⟩] none
      demoPage demoPageDoc (by decide) (by decide)).2 6
      (demoPageDoc.object_offsets.getD 6 0) (by decide) (by decide)⟩

/-- C6: at cross-reference emission time every slot except index 0 must be
non-negative — a remaining `-1` sentinel in any emitted slot makes the row
emission fail, so a successful `finish` implies every slot from index 1 on
in the final table is non-negative; and conversely, under the documented
calling sequence (construction, any metadata, any sequence of page
renders, then `finish`) the failure branch is never reached: every such
run of `runPages` and `finish` succeeds. -/
theorem finish_sentinel_fatal :
    (∀ offs : List Int, (∃ i, 1 ≤ i ∧ offs[i]? = some (-1)) →
        xrefRows (offs.drop 1) = none) ∧
    (∀ (now : Option String) (pdf pdf' : Pdf), finish now pdf = some pdf' →
        ∀ (i : Nat) (off : Int), pdf'.object_offsets[i]? = some off → 1 ≤ i →
          0 ≤ off) ∧
    (∀ (m : List (String × String)) (ps : List PageSpec) (now : Option String),
        ∃ pdfR pdf',
          runPages ps { Pdf.new with document_info := m } = some pdfR ∧
          finish now pdfR = some pdf') := by
  refine ⟨?_, ?_, ?_⟩
  · intro offs ⟨i, h1i, hi⟩
    cases hx : xrefRows (offs.drop 1) with
    | none => rfl
    | some rows =>
      exfalso
      have hmem : (-1 : Int) ∈ offs.drop 1 := by
        rw [List.mem_iff_getElem?]
        refine ⟨i - 1, ?_⟩
        rw [List.getElem?_drop, show 1 + (i - 1) = i from by omega]
        exact hi
      have := xrefRows_nonneg (offs.drop 1) rows hx (-1) hmem
      omega
  · intro now pdf pdf' he i off hi h1i
    simp only [finish, Option.bind_eq_some, Option.some.injEq] at he
    obtain ⟨a, hA, b, hB, c, hC, d, hD, rows, hrows, he⟩ := he
    have hoffs : pdf'.object_offsets = d.2.object_offsets := by
      rw [← he]
      rfl
    have hnn := xrefRows_nonneg _ rows hrows
    have hmem : off ∈ d.2.object_offsets.drop 1 := by
      rw [List.mem_iff_getElem?]
      refine ⟨i - 1, ?_⟩
      rw [List.getElem?_drop, ← hoffs]
      rw [show 1 + (i - 1) = i from by omega]
      exact hi
    exact hnn off hmem
  · intro m ps now
    obtain ⟨pdfR, hrun, hOkR, hrR, -, -, -, -⟩ :=
      runPages_inv ps { Pdf.new with document_info := m }
        offsetsOk_new ready_new
    obtain ⟨pdf', mid, rows, hfin, -, -, -, -⟩ := finish_spec now pdfR hOkR hrR
    exact ⟨pdfR, pdf', hrun, hfin⟩

set_option maxRecDepth 100000 in
theorem finish_sentinel_fatal_witness :
    xrefRows ([(-1 : Int), 3, -1].drop 1) = none ∧
    (0 : Int) ≤ demoDoc.object_offsets.getD 1 0 ∧
    (∃ pdfR pdf',
      runPages [] { Pdf.new with document_info := [] } = some pdfR ∧
      finish none pdfR = some pdf') :=
  ⟨finish_sentinel_fatal.1 [-1, 3, -1] ⟨2, by decide, by decide⟩,
   finish_sentinel_fatal.2.1 none Pdf.new demoDoc (by decide) 1
     (demoDoc.object_offsets.getD 1 0) (by decide) (by decide),
   finish_sentinel_fatal.2.2 [] [] none⟩

end RustPdf
